import Mathlib

/-!
Verification development for the filecentipede-activator repository
(single Python source file `main.py`).

The script fetches `activation_code.html`, parses the `<pre id="codes">`
block into (date-range line, code line) pairs, normalizes the timestamps
(strptime with pattern `%Y-%m-%d %H:%M:%S`, then isoformat, then a UTC+8
to UTC conversion), persists the pairs as `keys.json`, and selects the
first code whose window contains the current instant.

The shallow embedding below translates the program (and the behaviour of
the CPython library calls it relies on: `datetime.strptime`,
`datetime.fromisoformat`, `json.dumps` / `json.loads`) into executable
Lean definitions, and proves the frozen claims about them.

Conventions:
  - strings are processed as `List Char` so that every definition is
    structurally recursive and kernel-evaluable;
  - instants (timezone-aware datetimes) are modelled by their epoch
    second count (`Int`, proleptic-Gregorian ordinal day times 86400);
    Python compares aware datetimes by exactly this instant;
  - Python exceptions are modelled with `Option` / explicit outcome
    values.
-/

namespace FileCxx

/-! ### Characters and digits -/

/-- Numeric value of a (presumed decimal-digit) character. -/
def dval (c : Char) : Nat := c.toNat - 48

/-- The decimal digit character for `n < 10`. -/
def digitChar (n : Nat) : Char := Char.ofNat (48 + n)

/-- Two-digit zero-padded decimal rendering (`n ≤ 99`). -/
def pad2 (n : Nat) : List Char := [digitChar (n / 10), digitChar (n % 10)]

/-- Four-digit zero-padded decimal rendering (`n ≤ 9999`). -/
def pad4 (n : Nat) : List Char :=
  [digitChar (n / 1000), digitChar (n / 100 % 10), digitChar (n / 10 % 10), digitChar (n % 10)]

/-! ### Calendar arithmetic (the parts of `datetime` the script relies on) -/

/-- A naive (timezone-free) datetime, as produced by `datetime.strptime` /
`datetime.fromisoformat` for the formats this program uses. -/
structure DateTimeC where
  year : Nat
  month : Nat
  day : Nat
  hour : Nat
  minute : Nat
  second : Nat
deriving DecidableEq, Repr

/-- Gregorian leap-year rule, as in `calendar.isleap` / `datetime`. -/
def isLeap (y : Nat) : Bool := y % 4 == 0 && (y % 100 != 0 || y % 400 == 0)

/-- Length of month `m` (1-based) of year `y`; 0 for out-of-range months. -/
def daysInMonth (y m : Nat) : Nat :=
  match m with
  | 1 => 31 | 2 => if isLeap y then 29 else 28 | 3 => 31 | 4 => 30
  | 5 => 31 | 6 => 30 | 7 => 31 | 8 => 31
  | 9 => 30 | 10 => 31 | 11 => 30 | 12 => 31
  | _ => 0

/-- Days in year `y` strictly before month `m` (1-based). -/
def daysBeforeMonth (y m : Nat) : Nat :=
  match m with
  | 0 => 0
  | mm + 1 => daysBeforeMonth y mm + daysInMonth y mm

/-- Proleptic-Gregorian ordinal of a date, day 0 = 0001-01-01 (this is
`datetime.date.toordinal() - 1`). -/
def toOrdinal (y m d : Nat) : Nat :=
  365 * (y - 1) + (y - 1) / 4 - (y - 1) / 100 + (y - 1) / 400
    + daysBeforeMonth y m + (d - 1)

/-- The epoch-second count of a naive datetime read as a UTC wall clock
(seconds since 0001-01-01T00:00:00). Aware datetimes are compared by
exactly this instant (shifted by their offset). -/
def naiveEpoch (c : DateTimeC) : Int :=
  ((toOrdinal c.year c.month c.day) * 86400 + c.hour * 3600 + c.minute * 60 + c.second : Nat)

/-- Validity condition enforced by the `datetime` constructor (and hence by
`strptime` / `fromisoformat` before they return). -/
def validDT (c : DateTimeC) : Prop :=
  1 ≤ c.year ∧ c.year ≤ 9999 ∧ 1 ≤ c.month ∧ c.month ≤ 12 ∧
  1 ≤ c.day ∧ c.day ≤ daysInMonth c.year c.month ∧
  c.hour ≤ 23 ∧ c.minute ≤ 59 ∧ c.second ≤ 59

instance (c : DateTimeC) : Decidable (validDT c) := by
  unfold validDT; infer_instance

/-- The range checks of the `datetime(...)` constructor: `some` datetime or a
`ValueError` (`none`). -/
def mkValidDT (y m d h mi s : Nat) : Option DateTimeC :=
  let c : DateTimeC := ⟨y, m, d, h, mi, s⟩
  if validDT c then some c else none

/-! ### `datetime.strptime(date_str, "%Y-%m-%d %H:%M:%S")`

CPython's `_strptime` compiles the format to a regex; the field patterns
are (in this alternation order):
  `%Y` = `\d\d\d\d`, `%m` = `1[0-2]|0[1-9]|[1-9]`,
  `%d` = `3[0-1]|[1-2]\d|0[1-9]|[1-9]| [1-9]`,
  `%H` = `2[0-3]|[0-1]\d|\d`, `%M` = `[0-5]\d|\d`, `%S` = `6[0-1]|[0-5]\d|\d`,
and a literal whitespace in the format becomes `\s+`.  The regex must
match the whole string; the matched numbers are then validated by the
`datetime` constructor.  Each field matcher below returns the candidate
(value, rest-of-input) splits in alternation order, and `tryEach`
implements the regex engine's ordered backtracking over them. -/

/-- Ordered backtracking over candidate splits: first candidate whose
continuation succeeds wins. -/
def tryEach {α : Type} : List (Nat × List Char) → (Nat → List Char → Option α) → Option α
  | [], _ => none
  | (v, r) :: t, k =>
    match k v r with
    | some a => some a
    | none => tryEach t k

/-- `%Y`: exactly four digits. -/
def matchY : List Char → List (Nat × List Char)
  | a :: b :: c :: d :: r =>
    if a.isDigit ∧ b.isDigit ∧ c.isDigit ∧ d.isDigit then
      [(1000 * dval a + 100 * dval b + 10 * dval c + dval d, r)]
    else []
  | _ => []

/-- `%m`: `1[0-2]|0[1-9]|[1-9]`. -/
def matchMonth : List Char → List (Nat × List Char)
  | a :: b :: r =>
    (if a.isDigit ∧ dval a = 1 ∧ b.isDigit ∧ dval b ≤ 2 then [(10 + dval b, r)] else [])
      ++ (if a.isDigit ∧ dval a = 0 ∧ b.isDigit ∧ 1 ≤ dval b then [(dval b, r)] else [])
      ++ (if a.isDigit ∧ 1 ≤ dval a then [(dval a, b :: r)] else [])
  | [a] => if a.isDigit ∧ 1 ≤ dval a then [(dval a, [])] else []
  | [] => []

/-- `%d`: `3[0-1]|[1-2]\d|0[1-9]|[1-9]| [1-9]`. -/
def matchDay : List Char → List (Nat × List Char)
  | a :: b :: r =>
    (if a.isDigit ∧ dval a = 3 ∧ b.isDigit ∧ dval b ≤ 1 then [(30 + dval b, r)] else [])
      ++ (if a.isDigit ∧ 1 ≤ dval a ∧ dval a ≤ 2 ∧ b.isDigit then [(10 * dval a + dval b, r)] else [])
      ++ (if a.isDigit ∧ dval a = 0 ∧ b.isDigit ∧ 1 ≤ dval b then [(dval b, r)] else [])
      ++ (if a.isDigit ∧ 1 ≤ dval a then [(dval a, b :: r)] else [])
      ++ (if a = ' ' ∧ b.isDigit ∧ 1 ≤ dval b then [(dval b, r)] else [])
  | [a] => if a.isDigit ∧ 1 ≤ dval a then [(dval a, [])] else []
  | [] => []

/-- `%H`: `2[0-3]|[0-1]\d|\d`. -/
def matchHour : List Char → List (Nat × List Char)
  | a :: b :: r =>
    (if a.isDigit ∧ dval a = 2 ∧ b.isDigit ∧ dval b ≤ 3 then [(20 + dval b, r)] else [])
      ++ (if a.isDigit ∧ dval a ≤ 1 ∧ b.isDigit then [(10 * dval a + dval b, r)] else [])
      ++ (if a.isDigit then [(dval a, b :: r)] else [])
  | [a] => if a.isDigit then [(dval a, [])] else []
  | [] => []

/-- `%M`: `[0-5]\d|\d`. -/
def matchMinute : List Char → List (Nat × List Char)
  | a :: b :: r =>
    (if a.isDigit ∧ dval a ≤ 5 ∧ b.isDigit then [(10 * dval a + dval b, r)] else [])
      ++ (if a.isDigit then [(dval a, b :: r)] else [])
  | [a] => if a.isDigit then [(dval a, [])] else []
  | [] => []

/-- `%S`: `6[0-1]|[0-5]\d|\d`. -/
def matchSecond : List Char → List (Nat × List Char)
  | a :: b :: r =>
    (if a.isDigit ∧ dval a = 6 ∧ b.isDigit ∧ dval b ≤ 1 then [(60 + dval b, r)] else [])
      ++ (if a.isDigit ∧ dval a ≤ 5 ∧ b.isDigit then [(10 * dval a + dval b, r)] else [])
      ++ (if a.isDigit then [(dval a, b :: r)] else [])
  | [a] => if a.isDigit then [(dval a, [])] else []
  | [] => []

/-- A literal whitespace in the strptime format: `\s+` (greedy; the next
token is a digit, so maximal munch is equivalent to backtracking).
Python's `\s` covers Unicode whitespace; this model uses the ASCII
whitespace the page actually contains. -/
def matchWs : List Char → Option (List Char)
  | c :: r => if c.isWhitespace then some (r.dropWhile Char.isWhitespace) else none
  | [] => none

/-- Expect one literal (non-whitespace) format character. -/
def expectChar (c : Char) : List Char → Option (List Char)
  | x :: r => if x = c then some r else none
  | [] => none

/-- `datetime.strptime(s, "%Y-%m-%d %H:%M:%S")` on the characters of `s`:
`some` datetime or a `ValueError` (`none`).  The regex must consume the
whole string, and the matched values must pass the `datetime`
constructor's range checks. -/
def strptimeYmdHms (l : List Char) : Option DateTimeC :=
  tryEach (matchY l) fun yv r1 =>
  (expectChar '-' r1).bind fun r2 =>
  tryEach (matchMonth r2) fun mv r3 =>
  (expectChar '-' r3).bind fun r4 =>
  tryEach (matchDay r4) fun dv r5 =>
  (matchWs r5).bind fun r6 =>
  tryEach (matchHour r6) fun hv r7 =>
  (expectChar ':' r7).bind fun r8 =>
  tryEach (matchMinute r8) fun miv r9 =>
  (expectChar ':' r9).bind fun r10 =>
  tryEach (matchSecond r10) fun sv r11 =>
  if r11 = [] then mkValidDT yv mv dv hv miv sv else none

/-- `datetime.isoformat()` of a naive datetime with microsecond 0:
`YYYY-MM-DDTHH:MM:SS` (zero-padded, no timezone suffix). -/
def isoChars (c : DateTimeC) : List Char :=
  pad4 c.year ++ '-' :: (pad2 c.month ++ '-' :: (pad2 c.day ++ 'T' ::
    (pad2 c.hour ++ ':' :: (pad2 c.minute ++ ':' :: pad2 c.second))))

/-- `format_date` (main.py:127): strptime with `%Y-%m-%d %H:%M:%S`, then
`isoformat()`.  `none` models the uncaught `ValueError`. -/
def format_date (s : String) : Option String :=
  (strptimeYmdHms s.data).map fun c => String.mk (isoChars c)

/-! ### `convert_to_utc` (main.py:140)

`datetime.fromisoformat(date_string)` is applied to strings this program
itself produced with `isoformat()` (canonical `YYYY-MM-DDTHH:MM:SS`), so
it is modelled on that canonical form.  `.replace(tzinfo=timezone(timedelta(hours=8)))`
then `.astimezone(timezone.utc)` turn the wall clock into the instant
`naiveEpoch - 8*3600`; aware datetimes compare by that instant. -/

/-- Read exactly two decimal digits. -/
def read2 : List Char → Option (Nat × List Char)
  | a :: b :: r => if a.isDigit ∧ b.isDigit then some (10 * dval a + dval b, r) else none
  | _ => none

/-- Read exactly four decimal digits. -/
def read4 : List Char → Option (Nat × List Char)
  | a :: b :: c :: d :: r =>
    if a.isDigit ∧ b.isDigit ∧ c.isDigit ∧ d.isDigit then
      some (1000 * dval a + 100 * dval b + 10 * dval c + dval d, r)
    else none
  | _ => none

/-- `datetime.fromisoformat` on the canonical `YYYY-MM-DDTHH:MM:SS` form
(the only form this program feeds it). -/
def fromisoformatCanon (l : List Char) : Option DateTimeC :=
  (read4 l).bind fun (y, r1) =>
  (expectChar '-' r1).bind fun r2 =>
  (read2 r2).bind fun (m, r3) =>
  (expectChar '-' r3).bind fun r4 =>
  (read2 r4).bind fun (d, r5) =>
  (expectChar 'T' r5).bind fun r6 =>
  (read2 r6).bind fun (h, r7) =>
  (expectChar ':' r7).bind fun r8 =>
  (read2 r8).bind fun (mi, r9) =>
  (expectChar ':' r9).bind fun r10 =>
  (read2 r10).bind fun (s, r11) =>
  if r11 = [] then mkValidDT y m d h mi s else none

/-- `convert_to_utc` (main.py:140): parse, attach the fixed UTC+8 offset,
convert to UTC.  The result is the aware datetime's instant (epoch
seconds); `none` models an uncaught `ValueError`. -/
def convert_to_utc (s : String) : Option Int :=
  (fromisoformatCanon s.data).map fun c => naiveEpoch c - 8 * 3600

/-! ### String utilities (Python `str.strip`, `str.split`, `in`)

Implemented on `List Char` with structural recursion so they evaluate in
the kernel.  Python's `strip` removes Unicode whitespace; the model uses
ASCII whitespace (`Char.isWhitespace`), which covers the page content. -/

/-- Python `str.strip()`. -/
def trimChars (l : List Char) : List Char :=
  ((l.dropWhile Char.isWhitespace).reverse.dropWhile Char.isWhitespace).reverse

/-- Does `l` start with `sep`? -/
def leadsWith : List Char → List Char → Bool
  | [], _ => true
  | _ :: _, [] => false
  | s :: st, c :: ct => s = c && leadsWith st ct

/-- Python `sep in s` (substring containment, `sep` non-empty). -/
def containsSeq (sep : List Char) : List Char → Bool
  | [] => leadsWith sep []
  | c :: r => leadsWith sep (c :: r) || containsSeq sep r

/-- Split at the first occurrence of `sep`: `some (before, after)`. -/
def findSep (sep : List Char) : List Char → Option (List Char × List Char)
  | [] => if leadsWith sep [] then some ([], []) else none
  | c :: r =>
    if leadsWith sep (c :: r) then some ([], (c :: r).drop sep.length)
    else (findSep sep r).map fun p => (c :: p.1, p.2)

/-- Python `a, b = s.split(sep)`: succeeds exactly when `sep` occurs exactly
once (otherwise the unpacking raises `ValueError`). -/
def splitTwo (sep l : List Char) : Option (List Char × List Char) :=
  (findSep sep l).bind fun p =>
    if containsSeq sep p.2 then none else some p

/-- Python `s.split("\n")`. -/
def splitNl : List Char → List (List Char)
  | [] => [[]]
  | c :: r =>
    if c = '\n' then [] :: splitNl r
    else
      match splitNl r with
      | h :: t => (c :: h) :: t
      | [] => [[c]]

/-- The literal separator `" - "` of the page's date-range lines. -/
def dashSep : List Char := [' ', '-', ' ']

/-- Python `" - " in line`. -/
def hasDashSep (l : List Char) : Bool := containsSeq dashSep l

/-! ### `parse_html_content` (main.py:91) -/

/-- One (date-range line, code line) pair as accumulated by the parser. -/
structure RawWindowEntry where
  date_range : String
  activation_code : String
deriving DecidableEq, Repr

/-- The two-state scan of `parse_html_content` (main.py:113-124): per
stripped line, blank lines are skipped, a line containing `" - "` becomes
the pending range (overwriting any previous one), and any other line is
emitted with the pending range if one is outstanding. -/
def scanLines : List (List Char) → Option (List Char) → List RawWindowEntry
  | [], _ => []
  | l :: rest, pending =>
    if trimChars l = [] then scanLines rest pending
    else if hasDashSep (trimChars l) then scanLines rest (some (trimChars l))
    else
      match pending with
      | some dr => ⟨String.mk dr, String.mk (trimChars l)⟩ :: scanLines rest none
      | none => scanLines rest none

/-- `parse_html_content` (main.py:91): `BeautifulSoup(...).find("pre", id="codes")`
is an external library call, modelled by the `Option String` argument
(`none` = no such element, `some t` = the element's text).  If the element
is absent the function returns `[]`; otherwise the text is stripped, split
on newlines, and scanned. -/
def parse_html_content (preText : Option String) : List RawWindowEntry :=
  match preText with
  | none => []
  | some t => scanLines (splitNl (trimChars t.data)) none

/-! ### `create_json_object` (main.py:157) and `json.dumps(..., indent=2)` -/

/-- One element of the `formatted_data` list of `create_json_object`. -/
structure KeyRecord where
  start_date : String
  end_date : String
  activation_code : String
deriving DecidableEq, Repr

/-- The body of the `create_json_object` loop for one entry:
`start_date, end_date = item["date_range"].split(" - ")` (ValueError
unless the separator occurs exactly once), then `format_date` on each
half.  `none` models an uncaught exception. -/
def formatEntry (e : RawWindowEntry) : Option KeyRecord :=
  (splitTwo dashSep e.date_range.data).bind fun (a, b) =>
  (format_date (String.mk a)).bind fun fa =>
  (format_date (String.mk b)).map fun fb =>
  ⟨fa, fb, e.activation_code⟩

/-- JSON values (the payload this program serializes contains only
strings, arrays and objects; `true`/`false`/`null` are included for the
loader's fidelity, numbers never occur in the payload grammar). -/
inductive Json where
  | str (s : String)
  | arr (elems : List Json)
  | obj (members : List (String × Json))
  | bool (b : Bool)
  | null

/-- Lowercase hex digit. -/
def hexDigit (n : Nat) : Char := if n < 10 then digitChar n else Char.ofNat (87 + n)

/-- Four lowercase hex digits, as in `json.dumps`'s `\uXXXX`. -/
def hex4 (n : Nat) : List Char :=
  [hexDigit (n / 4096 % 16), hexDigit (n / 256 % 16), hexDigit (n / 16 % 16), hexDigit (n % 16)]

/-- `json.dumps` escaping of one character with the default
`ensure_ascii=True`: printable ASCII other than `"` and `\` is kept,
everything else is escaped (short escapes for the common controls,
`\uXXXX` otherwise, surrogate pairs above U+FFFF). -/
def escapeChar (c : Char) : List Char :=
  if c = '"' then ['\\', '"']
  else if c = '\\' then ['\\', '\\']
  else if c = '\n' then ['\\', 'n']
  else if c = '\t' then ['\\', 't']
  else if c = '\r' then ['\\', 'r']
  else if c.toNat = 8 then ['\\', 'b']
  else if c.toNat = 12 then ['\\', 'f']
  else if 32 ≤ c.toNat ∧ c.toNat ≤ 126 then [c]
  else if c.toNat < 65536 then '\\' :: 'u' :: hex4 c.toNat
  else
    '\\' :: 'u' :: hex4 (55296 + (c.toNat - 65536) / 1024)
      ++ '\\' :: 'u' :: hex4 (56320 + (c.toNat - 65536) % 1024)

/-- `json.dumps` escaping of a whole string (without the quotes). -/
def escapeString : List Char → List Char
  | [] => []
  | c :: r => escapeChar c ++ escapeString r

/-- A rendered JSON string literal. -/
def renderStr (s : String) : List Char := '"' :: escapeString s.data ++ ['"']

/-- Opening and closing braces (kept out of string literals). -/
def braceL : Char := Char.ofNat 123
def braceR : Char := Char.ofNat 125

/-- The four-space indentation of object members at nesting level 2. -/
def ind4 : List Char := [' ', ' ', ' ', ' ']

/-- One `"key": "value"` member, as `json.dumps(..., indent=2)` renders it. -/
def renderMember (k v : String) : List Char := renderStr k ++ ':' :: ' ' :: renderStr v

/-- The comma-newline-indent separated member list of an object. -/
def renderMembers : List (String × String) → List Char
  | [] => []
  | [(k, v)] => renderMember k v
  | (k, v) :: rest => renderMember k v ++ ',' :: '\n' :: (ind4 ++ renderMembers rest)

/-- The members of one `formatted_data` element, in insertion order
(Python dicts preserve it). -/
def recFields (r : KeyRecord) : List (String × String) :=
  [("start_date", r.start_date), ("end_date", r.end_date),
   ("activation_code", r.activation_code)]

/-- `json.dumps(..., indent=2)` rendering of one `formatted_data` element:
an object at nesting level 1 (members indented four spaces, closing brace
indented two). -/
def renderRec (r : KeyRecord) : List Char :=
  braceL :: '\n' :: (ind4 ++ renderMembers (recFields r)) ++ '\n' :: ' ' :: ' ' :: [braceR]

/-- The comma-newline-indent separated item list of the dump. -/
def renderItems : List KeyRecord → List Char
  | [] => []
  | [r] => ' ' :: ' ' :: renderRec r
  | r :: rest => ' ' :: ' ' :: renderRec r ++ ',' :: '\n' :: renderItems rest

/-- What follows one rendered record inside the dumped array: either the
closing of the array or the separator and the remaining items. -/
def itemsTail (recs : List KeyRecord) (rest : List Char) : List Char :=
  match recs with
  | [] => '\n' :: ']' :: rest
  | _ :: _ => ',' :: '\n' :: (renderItems recs ++ '\n' :: ']' :: rest)

/-- `json.dumps(formatted_data, indent=2)`. -/
def dumpsRecs (recs : List KeyRecord) : List Char :=
  match recs with
  | [] => ['[', ']']
  | _ => '[' :: '\n' :: renderItems recs ++ '\n' :: [']']

/-- The `for item in parsed_data` loop of `create_json_object`: format each
entry, propagating the first exception. -/
def mapOption {A B : Type} (f : A → Option B) : List A → Option (List B)
  | [] => some []
  | a :: l => (f a).bind fun b => (mapOption f l).map fun bs => b :: bs

/-- `create_json_object` (main.py:157): format every parsed entry (any
exception propagates: `none`), then `json.dumps(formatted_data, indent=2)`. -/
def create_json_object (parsed : List RawWindowEntry) : Option String :=
  (mapOption formatEntry parsed).map fun recs => String.mk (dumpsRecs recs)

/-! ### `json.loads`

A recursive-descent parser for the JSON subset the payload grammar uses
(strings, arrays, objects, and the three literals; the payload never
contains numbers).  JSON whitespace is exactly `' '`, `'\t'`, `'\n'`,
`'\r'`, which coincides with `Char.isWhitespace`.  The `fuel` argument is
a totality artifact only (any sufficiently large value models the
terminating Python parser). -/

/-- Skip JSON whitespace. -/
def skipWsL (l : List Char) : List Char := l.dropWhile Char.isWhitespace

/-- Value of one hex digit (both cases), as in `json` string escapes. -/
def hexVal (c : Char) : Option Nat :=
  let n := c.toNat
  if 48 ≤ n ∧ n ≤ 57 then some (n - 48)
  else if 97 ≤ n ∧ n ≤ 102 then some (n - 87)
  else if 65 ≤ n ∧ n ≤ 70 then some (n - 55)
  else none

/-- Value of a four-hex-digit escape. -/
def hexVal4 (a b c d : Char) : Option Nat :=
  (hexVal a).bind fun va => (hexVal b).bind fun vb =>
  (hexVal c).bind fun vc => (hexVal d).map fun vd =>
  4096 * va + 256 * vb + 16 * vc + vd

/-- The short escapes `\" \\ \/ \n \t \r \b \f`. -/
def unescapeSimple (e : Char) : Option Char :=
  if e = '"' then some '"'
  else if e = '\\' then some '\\'
  else if e = '/' then some '/'
  else if e = 'n' then some '\n'
  else if e = 't' then some '\t'
  else if e = 'r' then some '\r'
  else if e = 'b' then some (Char.ofNat 8)
  else if e = 'f' then some (Char.ofNat 12)
  else none

/-- Decode the tail of a `\\uXXXX` escape that opened with a high
surrogate `n1`: expect a second `\\uXXXX` escape holding a low surrogate
and recombine, as `json.loads` does. -/
def parseLoSurr (n1 : Nat) : List Char → Option (Char × List Char)
  | s1 :: s2 :: a :: b :: c :: d :: r4 =>
    if s1 = '\\' ∧ s2 = 'u' then
      (hexVal4 a b c d).bind fun n2 =>
      if 56320 ≤ n2 ∧ n2 ≤ 57343 then
        some (Char.ofNat (65536 + (n1 - 55296) * 1024 + (n2 - 56320)), r4)
      else none
    else none
  | _ => none

/-- Decode a `\\uXXXX` escape after its `u`.  A lone surrogate is a parse
failure in this model (Lean characters are Unicode scalars; the payload,
produced by `json.dumps`, never contains lone surrogates). -/
def parseUEsc : List Char → Option (Char × List Char)
  | a :: b :: c :: d :: r3 =>
    (hexVal4 a b c d).bind fun n =>
    if 55296 ≤ n ∧ n ≤ 56319 then parseLoSurr n r3
    else if 56320 ≤ n ∧ n ≤ 57343 then none
    else some (Char.ofNat n, r3)
  | _ => none

/-- Decode one escape sequence after its backslash. -/
def parseEscapePayload : List Char → Option (Char × List Char)
  | [] => none
  | e :: r2 =>
    if e = 'u' then parseUEsc r2
    else (unescapeSimple e).map fun u => (u, r2)

/-- Parse a JSON string body after the opening quote, up to and including
the closing quote: the decoded characters and the rest of the input.  Raw
control characters are rejected as in `json.loads` strict mode.  The fuel
is a totality artifact: every step consumes at least one input character,
so `length + 1` fuel (see `parseStrAt`) can never run out. -/
def parseStringBodyF : Nat → List Char → Option (List Char × List Char)
  | 0, _ => none
  | _ + 1, [] => none
  | f + 1, c :: r =>
    if c = '"' then some ([], r)
    else if c = '\\' then
      (parseEscapePayload r).bind fun p =>
      (parseStringBodyF f p.2).map fun q => (p.1 :: q.1, q.2)
    else if c.toNat < 32 then none
    else (parseStringBodyF f r).map fun q => (c :: q.1, q.2)

/-- Parse a JSON string body, fuel instantiated sufficiently. -/
def parseStrAt (r : List Char) : Option (List Char × List Char) :=
  parseStringBodyF (r.length + 1) r

/-- Parser modes: a single value, the items of a non-empty array (up to and
including `]`), or the members of a non-empty object (up to and including
the closing brace). -/
inductive PMode where
  | value
  | items
  | members

/-- Mode-indexed parser results. -/
inductive POut where
  | v (j : Json)
  | vs (js : List Json)
  | ms (kvs : List (String × Json))

/-- The recursive-descent core of `json.loads`. -/
def parseJ : Nat → PMode → List Char → Option (POut × List Char)
  | 0, _, _ => none
  | f + 1, PMode.value, l =>
    match skipWsL l with
    | [] => none
    | c :: r =>
      if c = '"' then
        (parseStrAt r).map fun p => (POut.v (Json.str (String.mk p.1)), p.2)
      else if c = '[' then
        match skipWsL r with
        | ']' :: r2 => some (POut.v (Json.arr []), r2)
        | r2 =>
          (parseJ f PMode.items r2).bind fun q =>
          match q.1 with
          | POut.vs js => some (POut.v (Json.arr js), q.2)
          | _ => none
      else if c = braceL then
        match skipWsL r with
        | [] => none
        | c2 :: r2 =>
          if c2 = braceR then some (POut.v (Json.obj []), r2)
          else
            (parseJ f PMode.members (c2 :: r2)).bind fun q =>
            match q.1 with
            | POut.ms kvs => some (POut.v (Json.obj kvs), q.2)
            | _ => none
      else if c = 't' then
        match r with
        | 'r' :: 'u' :: 'e' :: r2 => some (POut.v (Json.bool true), r2)
        | _ => none
      else if c = 'f' then
        match r with
        | 'a' :: 'l' :: 's' :: 'e' :: r2 => some (POut.v (Json.bool false), r2)
        | _ => none
      else if c = 'n' then
        match r with
        | 'u' :: 'l' :: 'l' :: r2 => some (POut.v Json.null, r2)
        | _ => none
      else none
  | f + 1, PMode.items, l =>
    (parseJ f PMode.value l).bind fun q =>
    match q.1 with
    | POut.v j =>
      (match skipWsL q.2 with
       | ',' :: r2 =>
         (parseJ f PMode.items r2).bind fun q2 =>
         (match q2.1 with
          | POut.vs js => some (POut.vs (j :: js), q2.2)
          | _ => none)
       | ']' :: r2 => some (POut.vs [j], r2)
       | _ => none)
    | _ => none
  | f + 1, PMode.members, l =>
    match skipWsL l with
    | [] => none
    | c :: r =>
      if c = '"' then
        (parseStrAt r).bind fun (k, r2) =>
        match skipWsL r2 with
        | ':' :: r3 =>
          (parseJ f PMode.value r3).bind fun q =>
          (match q.1 with
           | POut.v j =>
             (match skipWsL q.2 with
              | ',' :: r4 =>
                (parseJ f PMode.members r4).bind fun q2 =>
                (match q2.1 with
                 | POut.ms ms => some (POut.ms ((String.mk k, j) :: ms), q2.2)
                 | _ => none)
              | c2 :: r4 =>
                if c2 = braceR then some (POut.ms [(String.mk k, j)], r4) else none
              | [] => none)
           | _ => none)
        | _ => none
      else none

/-- `json.loads`: parse one value and require only trailing whitespace. -/
def json_loads (s : String) : Option Json :=
  (parseJ (2 * s.length + 16) PMode.value s.data).bind fun q =>
  match q.1, skipWsL q.2 with
  | POut.v j, [] => some j
  | _, _ => none

/-! ### The Selector and the `main` control flow (main.py:282-360) -/

/-- A normalized activation window: start and end instants (UTC epoch
seconds) and the code. -/
structure ActivationWindow where
  startTime : Int
  endTime : Int
  code : String
deriving DecidableEq, Repr

/-- The selection loop of `main` (main.py:327-334) over already-normalized
windows: first window with `start_time <= now <= end_time` wins, `none`
when no window matches. -/
def selectCode (now : Int) : List ActivationWindow → Option String
  | [] => none
  | w :: rest =>
    if w.startTime ≤ now ∧ now ≤ w.endTime then some w.code else selectCode now rest

/-- Python's falsy test `if not correct_code:` on an optional string
(main.py:336): true for `None` and for the empty string. -/
def pyFalsy : Option String → Bool
  | none => true
  | some s => s == ""

/-- Dictionary field access `item[k]` restricted to string values (the
payload's fields are strings). -/
def getStrField (j : Json) (k : String) : Option String :=
  match j with
  | Json.obj ms =>
    match ms.lookup k with
    | some (Json.str s) => some s
    | _ => none
  | _ => none

/-- How a single run ends, beyond its notifications and file writes. -/
inductive RunOutcome where
  | crashed (exc : String)
  | noCodeFound
  | delivered (code : String)
deriving DecidableEq, Repr

/-- The `for item in cached_data:` loop of `main` (main.py:328-334) on the
loaded JSON items: look up and convert both bounds, compare, and take the
first match; a missing/non-string field or unparseable timestamp is an
uncaught exception. -/
def selectLoop (now : Int) : List Json → Except String (Option String)
  | [] => Except.ok none
  | item :: rest =>
    match getStrField item "start_date" with
    | none => Except.error "KeyError"
    | some sd =>
      match convert_to_utc sd with
      | none => Except.error "ValueError"
      | some st =>
        match getStrField item "end_date" with
        | none => Except.error "KeyError"
        | some ed =>
          match convert_to_utc ed with
          | none => Except.error "ValueError"
          | some et =>
            if st ≤ now ∧ now ≤ et then
              match getStrField item "activation_code" with
              | none => Except.error "KeyError"
              | some code => Except.ok (some code)
            else selectLoop now rest

/-- The result of the HTTP GET of `build_cached_data` (main.py:188): a
response with a status code and the text of the `<pre id="codes">` element
of its body (`none` when the element is absent), or a raised
`requests.exceptions.RequestException`. -/
inductive FetchOutcome where
  | ok (status : Nat) (preText : Option String)
  | requestError
deriving DecidableEq, Repr

/-- The message of the network-failure alert (main.py:200). -/
def connectFailMsg : String := "Failed to connect to the server. Please try again later."

/-- The message of the no-code alert (main.py:337). -/
def noCodeMsg : String := "No valid activation code found. Please try again later."

/-- The `TypeError` raised by `for item in None:` (main.py:328). -/
def noneIterMsg : String := "TypeError: NoneType object is not iterable"

/-- `build_cached_data` (main.py:180): shown alerts, and either the JSON
string, or `none` (network failure, non-200 status), or a propagating
exception.  `raise_for_status` raises for 4xx/5xx, which the
`RequestException` handler catches; a `ValueError` from
`create_json_object` is not caught and escapes. -/
def build_cached_data (f : FetchOutcome) : List String × Except String (Option String) :=
  match f with
  | FetchOutcome.requestError => ([connectFailMsg], Except.ok none)
  | FetchOutcome.ok status pre =>
    if 400 ≤ status then ([connectFailMsg], Except.ok none)
    else if status = 200 then
      match create_json_object (parse_html_content pre) with
      | some j => ([], Except.ok (some j))
      | none => ([], Except.error "ValueError")
    else ([], Except.ok none)

/-- The fetch-write-load-select portion of `main` shared by both branches
of the `os.path.exists("./keys.json")` check (main.py:314-342): fetch,
write the fresh JSON to `keys.json` when non-`None`, `json.loads` it, and
run the selection loop.  Returns (alerts, contents written to `keys.json`,
outcome).  The loaded payload is always an array here (it comes from
`create_json_object`); a non-array load is reported as a crash. -/
def runFetchSelect (f : FetchOutcome) (now : Int) :
    List String × Option String × RunOutcome :=
  match build_cached_data f with
  | (alerts, Except.error e) => (alerts, none, RunOutcome.crashed e)
  | (alerts, Except.ok none) => (alerts, none, RunOutcome.crashed noneIterMsg)
  | (alerts, Except.ok (some tmp)) =>
    match json_loads tmp with
    | none => (alerts, some tmp, RunOutcome.crashed "JSONDecodeError")
    | some (Json.arr items) =>
      (match selectLoop now items with
       | Except.error e => (alerts, some tmp, RunOutcome.crashed e)
       | Except.ok code =>
         if pyFalsy code then (alerts ++ [noCodeMsg], some tmp, RunOutcome.noCodeFound)
         else (alerts, some tmp, RunOutcome.delivered (code.getD "")))
    | some _ => (alerts, some tmp, RunOutcome.crashed "TypeError")

/-- `main` from the cache check onward (main.py:305-342): the pre-existing
`keys.json` contents (`none` = file absent) decide only which of the two
identical branches runs. -/
def mainRun (existingKeys : Option String) (f : FetchOutcome) (now : Int) :
    List String × Option String × RunOutcome :=
  if existingKeys.isSome then runFetchSelect f now else runFetchSelect f now

/-- The alternating line block formed by a list of (range line, code line)
pairs, for stating the parser's pairing property. -/
def interleavePairs : List (List Char × List Char) → List (List Char)
  | [] => []
  | p :: rest => p.1 :: p.2 :: interleavePairs rest

/-! ### Spec-side definitions (from the specification's words, for
comparison against the embedded code) -/

/-- The spec's "zero-padded 24-hour pattern YYYY-MM-DD HH:MM:SS", read as a
shape: nineteen characters, digits in the date/time positions, literal
separators in the others. -/
def strictPat (s : String) : Bool :=
  match s.data with
  | [y1, y2, y3, y4, s1, m1, m2, s2, d1, d2, s3, h1, h2, s4, n1, n2, s5, c1, c2] =>
    y1.isDigit && y2.isDigit && y3.isDigit && y4.isDigit && s1 == '-'
      && m1.isDigit && m2.isDigit && s2 == '-' && d1.isDigit && d2.isDigit
      && s3 == ' ' && h1.isDigit && h2.isDigit && s4 == ':'
      && n1.isDigit && n2.isDigit && s5 == ':' && c1.isDigit && c2.isDigit
  | _ => false

/-- The zero-padded `YYYY-MM-DD HH:MM:SS` rendering of a datetime (the
canonical form the page publishes and the spec's pattern describes). -/
def strictChars (c : DateTimeC) : List Char :=
  pad4 c.year ++ '-' :: (pad2 c.month ++ '-' :: (pad2 c.day ++ ' ' ::
    (pad2 c.hour ++ ':' :: (pad2 c.minute ++ ':' :: pad2 c.second))))

/-- The JSON value `json.loads` recovers for one `formatted_data` element:
an object with exactly the keys `start_date`, `end_date`,
`activation_code`, in insertion order, all with string values. -/
def recJson (r : KeyRecord) : Json :=
  Json.obj [("start_date", Json.str r.start_date),
            ("end_date", Json.str r.end_date),
            ("activation_code", Json.str r.activation_code)]

end FileCxx

namespace FileCxx

/-! ## Digit and rendering lemmas -/

theorem digitChar_toNat {n : Nat} (h : n ≤ 9) : (digitChar n).toNat = 48 + n := by
  interval_cases n <;> decide

theorem digitChar_isDigit {n : Nat} (h : n ≤ 9) : (digitChar n).isDigit = true := by
  interval_cases n <;> decide

theorem dval_digitChar {n : Nat} (h : n ≤ 9) : dval (digitChar n) = n := by
  interval_cases n <;> decide

theorem digitChar_not_ws {n : Nat} (h : n ≤ 9) : (digitChar n).isWhitespace = false := by
  interval_cases n <;> decide

/-! ## Field-matcher lemmas: on a zero-padded in-range rendering, the first
candidate of each strptime field matcher is the rendered value with the
rest of the input untouched. -/

theorem matchY_pad4 {n : Nat} (h : n ≤ 9999) (r : List Char) :
    matchY (pad4 n ++ r) = [(n, r)] := by
  have h1 : n / 1000 ≤ 9 := by omega
  have h2 : n / 100 % 10 ≤ 9 := by omega
  have h3 : n / 10 % 10 ≤ 9 := by omega
  have h4 : n % 10 ≤ 9 := by omega
  simp only [pad4, List.cons_append, List.nil_append, matchY,
    digitChar_isDigit h1, digitChar_isDigit h2, digitChar_isDigit h3, digitChar_isDigit h4,
    dval_digitChar h1, dval_digitChar h2, dval_digitChar h3, dval_digitChar h4,
    true_and, and_true, if_true]
  have : 1000 * (n / 1000) + 100 * (n / 100 % 10) + 10 * (n / 10 % 10) + n % 10 = n := by
    omega
  rw [this]

theorem matchMonth_pad2 {n : Nat} (h1 : 1 ≤ n) (h2 : n ≤ 12) (r : List Char) :
    ∃ t, matchMonth (pad2 n ++ r) = (n, r) :: t := by
  have ha : n / 10 ≤ 9 := by omega
  have hb : n % 10 ≤ 9 := by omega
  simp only [pad2, List.cons_append, List.nil_append, matchMonth,
    digitChar_isDigit ha, digitChar_isDigit hb, dval_digitChar ha, dval_digitChar hb,
    true_and, and_true, if_true]
  rcases Nat.lt_or_ge n 10 with hc | hc
  · rw [if_neg (by omega), if_pos (by omega)]
    have e : n % 10 = n := by omega
    simp only [e, List.nil_append, List.singleton_append]
    exact ⟨_, rfl⟩
  · rw [if_pos (by omega)]
    have e : 10 + n % 10 = n := by omega
    simp only [e, List.append_assoc, List.singleton_append]
    exact ⟨_, rfl⟩

theorem matchDay_pad2 {n : Nat} (h1 : 1 ≤ n) (h2 : n ≤ 31) (r : List Char) :
    ∃ t, matchDay (pad2 n ++ r) = (n, r) :: t := by
  have ha : n / 10 ≤ 9 := by omega
  have hb : n % 10 ≤ 9 := by omega
  have hsp : (digitChar (n / 10) = ' ') = False := by
    simp only [eq_iff_iff, iff_false]
    intro hx
    have := digitChar_toNat ha
    rw [hx] at this
    simp at this
    omega
  simp only [pad2, List.cons_append, List.nil_append, matchDay,
    digitChar_isDigit ha, digitChar_isDigit hb, dval_digitChar ha, dval_digitChar hb,
    hsp, false_and, if_false, true_and, and_true, if_true]
  rcases Nat.lt_or_ge n 10 with hc | hc
  · rw [if_neg (by omega), if_neg (by omega), if_pos (by omega)]
    have e : n % 10 = n := by omega
    simp only [e, List.nil_append, List.singleton_append]
    exact ⟨_, rfl⟩
  · rcases Nat.lt_or_ge n 30 with hd | hd
    · rw [if_neg (by omega), if_pos (by omega)]
      have e : 10 * (n / 10) + n % 10 = n := by omega
      simp only [e, List.nil_append, List.append_assoc, List.singleton_append]
      exact ⟨_, rfl⟩
    · rw [if_pos (by omega)]
      have e : 30 + n % 10 = n := by omega
      simp only [e, List.append_assoc, List.singleton_append]
      exact ⟨_, rfl⟩

theorem matchHour_pad2 {n : Nat} (h : n ≤ 23) (r : List Char) :
    ∃ t, matchHour (pad2 n ++ r) = (n, r) :: t := by
  have ha : n / 10 ≤ 9 := by omega
  have hb : n % 10 ≤ 9 := by omega
  simp only [pad2, List.cons_append, List.nil_append, matchHour,
    digitChar_isDigit ha, digitChar_isDigit hb, dval_digitChar ha, dval_digitChar hb,
    true_and, and_true, if_true]
  rcases Nat.lt_or_ge n 20 with hc | hc
  · rw [if_neg (by omega), if_pos (by omega)]
    have e : 10 * (n / 10) + n % 10 = n := by omega
    simp only [e, List.nil_append, List.append_assoc, List.singleton_append]
    exact ⟨_, rfl⟩
  · rw [if_pos (by omega)]
    have e : 20 + n % 10 = n := by omega
    simp only [e, List.append_assoc, List.singleton_append]
    exact ⟨_, rfl⟩

theorem matchMinute_pad2 {n : Nat} (h : n ≤ 59) (r : List Char) :
    ∃ t, matchMinute (pad2 n ++ r) = (n, r) :: t := by
  have ha : n / 10 ≤ 9 := by omega
  have hb : n % 10 ≤ 9 := by omega
  simp only [pad2, List.cons_append, List.nil_append, matchMinute,
    digitChar_isDigit ha, digitChar_isDigit hb, dval_digitChar ha, dval_digitChar hb,
    true_and, and_true, if_true]
  rw [if_pos (by omega)]
  have e : 10 * (n / 10) + n % 10 = n := by omega
  simp only [e, List.append_assoc, List.singleton_append]
  exact ⟨_, rfl⟩

theorem matchSecond_pad2 {n : Nat} (h : n ≤ 59) (r : List Char) :
    ∃ t, matchSecond (pad2 n ++ r) = (n, r) :: t := by
  have ha : n / 10 ≤ 9 := by omega
  have hb : n % 10 ≤ 9 := by omega
  simp only [pad2, List.cons_append, List.nil_append, matchSecond,
    digitChar_isDigit ha, digitChar_isDigit hb, dval_digitChar ha, dval_digitChar hb,
    true_and, and_true, if_true]
  rw [if_neg (by omega), if_pos (by omega)]
  have e : 10 * (n / 10) + n % 10 = n := by omega
  simp only [e, List.nil_append, List.append_assoc, List.singleton_append]
  exact ⟨_, rfl⟩

theorem matchWs_pad2 {n : Nat} (h : n ≤ 99) (r : List Char) :
    matchWs (' ' :: (pad2 n ++ r)) = some (pad2 n ++ r) := by
  have ha : n / 10 ≤ 9 := by omega
  simp only [matchWs, if_pos (show (' ').isWhitespace = true by decide), pad2,
    List.cons_append, List.dropWhile_cons, digitChar_not_ws ha]
  simp

/-! ## Parse-of-render: strptime and fromisoformat recover a rendered
datetime exactly. -/

theorem daysInMonth_le31 (y m : Nat) : daysInMonth y m ≤ 31 := by
  unfold daysInMonth
  split <;> first | omega | (split <;> omega)

theorem strptime_strictChars {c : DateTimeC} (h : validDT c) :
    strptimeYmdHms (strictChars c) = some c := by
  obtain ⟨h1, h2, h3, h4, h5, h6, h7, h8, h9⟩ := h
  have h6' : c.day ≤ 31 := le_trans h6 (daysInMonth_le31 _ _)
  obtain ⟨t2, hm⟩ := matchMonth_pad2 h3 h4
    ('-' :: (pad2 c.day ++ ' ' :: (pad2 c.hour ++ ':' :: (pad2 c.minute ++ ':' :: pad2 c.second))))
  obtain ⟨t3, hd⟩ := matchDay_pad2 h5 h6'
    (' ' :: (pad2 c.hour ++ ':' :: (pad2 c.minute ++ ':' :: pad2 c.second)))
  obtain ⟨t4, hh⟩ := matchHour_pad2 h7 (':' :: (pad2 c.minute ++ ':' :: pad2 c.second))
  obtain ⟨t5, hmi⟩ := matchMinute_pad2 h8 (':' :: pad2 c.second)
  obtain ⟨t6, hs⟩ := matchSecond_pad2 h9 ([] : List Char)
  rw [List.append_nil] at hs
  have hv : validDT ⟨c.year, c.month, c.day, c.hour, c.minute, c.second⟩ :=
    ⟨h1, h2, h3, h4, h5, h6, h7, h8, h9⟩
  simp [strptimeYmdHms, strictChars, matchY_pad4 h2, hm, hd, hh, hmi, hs,
    matchWs_pad2 (show c.hour ≤ 99 by omega), tryEach, expectChar, mkValidDT, hv]

theorem read2_pad2 {n : Nat} (h : n ≤ 99) (r : List Char) :
    read2 (pad2 n ++ r) = some (n, r) := by
  have ha : n / 10 ≤ 9 := by omega
  have hb : n % 10 ≤ 9 := by omega
  simp only [pad2, List.cons_append, List.nil_append, read2,
    digitChar_isDigit ha, digitChar_isDigit hb, dval_digitChar ha, dval_digitChar hb,
    true_and, and_true, if_true]
  have e : 10 * (n / 10) + n % 10 = n := by omega
  rw [e]

theorem read4_pad4 {n : Nat} (h : n ≤ 9999) (r : List Char) :
    read4 (pad4 n ++ r) = some (n, r) := by
  have h1 : n / 1000 ≤ 9 := by omega
  have h2 : n / 100 % 10 ≤ 9 := by omega
  have h3 : n / 10 % 10 ≤ 9 := by omega
  have h4 : n % 10 ≤ 9 := by omega
  simp only [pad4, List.cons_append, List.nil_append, read4,
    digitChar_isDigit h1, digitChar_isDigit h2, digitChar_isDigit h3, digitChar_isDigit h4,
    dval_digitChar h1, dval_digitChar h2, dval_digitChar h3, dval_digitChar h4,
    true_and, and_true, if_true]
  have e : 1000 * (n / 1000) + 100 * (n / 100 % 10) + 10 * (n / 10 % 10) + n % 10 = n := by
    omega
  rw [e]

theorem fromiso_isoChars {c : DateTimeC} (h : validDT c) :
    fromisoformatCanon (isoChars c) = some c := by
  obtain ⟨h1, h2, h3, h4, h5, h6, h7, h8, h9⟩ := h
  have h6' : c.day ≤ 31 := le_trans h6 (daysInMonth_le31 _ _)
  have hv : validDT ⟨c.year, c.month, c.day, c.hour, c.minute, c.second⟩ :=
    ⟨h1, h2, h3, h4, h5, h6, h7, h8, h9⟩
  have hsec := read2_pad2 (show c.second ≤ 99 by omega) ([] : List Char)
  rw [List.append_nil] at hsec
  simp [fromisoformatCanon, isoChars, read4_pad4 h2,
    read2_pad2 (show c.month ≤ 99 by omega), read2_pad2 (show c.day ≤ 99 by omega),
    read2_pad2 (show c.hour ≤ 99 by omega), read2_pad2 (show c.minute ≤ 99 by omega),
    hsec, expectChar, mkValidDT, hv]

/-! ## Extraction: a successful strptime / fromisoformat output passed the
datetime constructor's range checks. -/

theorem tryEach_some {α : Type} {cands : List (Nat × List Char)}
    {k : Nat → List Char → Option α} {a : α} (h : tryEach cands k = some a) :
    ∃ v r, (v, r) ∈ cands ∧ k v r = some a := by
  induction cands with
  | nil => simp [tryEach] at h
  | cons p t ih =>
    obtain ⟨v, r⟩ := p
    rw [tryEach] at h
    rcases hk : k v r with _ | b
    · rw [hk] at h
      obtain ⟨v2, r2, hmem, hkr⟩ := ih h
      exact ⟨v2, r2, List.mem_cons_of_mem _ hmem, hkr⟩
    · rw [hk] at h
      obtain rfl : b = a := by simpa using h
      exact ⟨v, r, List.mem_cons_self _ _, hk⟩

theorem mkValidDT_some {y m d h mi s : Nat} {c : DateTimeC}
    (hc : mkValidDT y m d h mi s = some c) :
    validDT c ∧ c = ⟨y, m, d, h, mi, s⟩ := by
  simp only [mkValidDT] at hc
  by_cases hv : validDT ⟨y, m, d, h, mi, s⟩
  · rw [if_pos hv] at hc
    obtain rfl : (⟨y, m, d, h, mi, s⟩ : DateTimeC) = c := by simpa using hc
    exact ⟨hv, rfl⟩
  · rw [if_neg hv] at hc
    simp at hc

theorem strptime_valid {l : List Char} {c : DateTimeC}
    (h : strptimeYmdHms l = some c) : validDT c := by
  unfold strptimeYmdHms at h
  obtain ⟨_, _, _, h⟩ := tryEach_some h
  rw [Option.bind_eq_some] at h
  obtain ⟨_, _, h⟩ := h
  obtain ⟨_, _, _, h⟩ := tryEach_some h
  rw [Option.bind_eq_some] at h
  obtain ⟨_, _, h⟩ := h
  obtain ⟨_, _, _, h⟩ := tryEach_some h
  rw [Option.bind_eq_some] at h
  obtain ⟨_, _, h⟩ := h
  obtain ⟨_, _, _, h⟩ := tryEach_some h
  rw [Option.bind_eq_some] at h
  obtain ⟨_, _, h⟩ := h
  obtain ⟨_, _, _, h⟩ := tryEach_some h
  rw [Option.bind_eq_some] at h
  obtain ⟨_, _, h⟩ := h
  obtain ⟨_, r11, _, h⟩ := tryEach_some h
  by_cases hr : r11 = []
  · rw [if_pos hr] at h
    exact (mkValidDT_some h).1
  · rw [if_neg hr] at h
    simp at h

theorem fromiso_valid {l : List Char} {c : DateTimeC}
    (h : fromisoformatCanon l = some c) : validDT c := by
  unfold fromisoformatCanon at h
  rw [Option.bind_eq_some] at h
  obtain ⟨⟨y, r1⟩, _, h⟩ := h
  dsimp only at h
  rw [Option.bind_eq_some] at h
  obtain ⟨r2, _, h⟩ := h
  rw [Option.bind_eq_some] at h
  obtain ⟨⟨m, r3⟩, _, h⟩ := h
  dsimp only at h
  rw [Option.bind_eq_some] at h
  obtain ⟨r4, _, h⟩ := h
  rw [Option.bind_eq_some] at h
  obtain ⟨⟨d, r5⟩, _, h⟩ := h
  dsimp only at h
  rw [Option.bind_eq_some] at h
  obtain ⟨r6, _, h⟩ := h
  rw [Option.bind_eq_some] at h
  obtain ⟨⟨hh, r7⟩, _, h⟩ := h
  dsimp only at h
  rw [Option.bind_eq_some] at h
  obtain ⟨r8, _, h⟩ := h
  rw [Option.bind_eq_some] at h
  obtain ⟨⟨mi2, r9⟩, _, h⟩ := h
  dsimp only at h
  rw [Option.bind_eq_some] at h
  obtain ⟨r10, _, h⟩ := h
  rw [Option.bind_eq_some] at h
  obtain ⟨⟨s2, r11⟩, _, h⟩ := h
  dsimp only at h
  by_cases hr : r11 = []
  · rw [if_pos hr] at h
    exact (mkValidDT_some h).1
  · rw [if_neg hr] at h
    simp at h

/-! ## JSON string escaping round trip -/

theorem char_valid_toNat (c : Char) : c.toNat < 55296 ∨ (57343 < c.toNat ∧ c.toNat < 1114112) := by
  rcases c.valid with h | ⟨h1, h2⟩
  · exact Or.inl h
  · exact Or.inr ⟨h1, h2⟩

theorem hexVal_hexDigit {k : Nat} (h : k ≤ 15) : hexVal (hexDigit k) = some k := by
  interval_cases k <;> decide

theorem hexVal4_hex4 {n : Nat} (h : n < 65536) :
    hexVal4 (hexDigit (n / 4096 % 16)) (hexDigit (n / 256 % 16))
      (hexDigit (n / 16 % 16)) (hexDigit (n % 16)) = some n := by
  rw [hexVal4, hexVal_hexDigit (by omega), hexVal_hexDigit (by omega),
    hexVal_hexDigit (by omega), hexVal_hexDigit (by omega)]
  simp only [Option.some_bind, Option.map_some']
  have e : 4096 * (n / 4096 % 16) + 256 * (n / 256 % 16) + 16 * (n / 16 % 16) + n % 16 = n := by
    omega
  rw [e]

theorem parseEscapePayload_simple (e u : Char) (he : e ≠ 'u')
    (hu : unescapeSimple e = some u) (r : List Char) :
    parseEscapePayload (e :: r) = some (u, r) := by
  rw [parseEscapePayload, if_neg he, hu, Option.map_some']

theorem parseEscapePayload_u {n : Nat} (hlt : n < 65536)
    (hno : ¬(55296 ≤ n ∧ n ≤ 57343)) (r : List Char) :
    parseEscapePayload ('u' :: (hex4 n ++ r)) = some (Char.ofNat n, r) := by
  rw [parseEscapePayload, if_pos rfl]
  simp only [hex4, List.cons_append, List.nil_append, parseUEsc, hexVal4_hex4 hlt,
    Option.some_bind]
  rw [if_neg (by omega), if_neg (by omega)]

theorem parseEscapePayload_pair {n1 n2 : Nat}
    (h1 : 55296 ≤ n1) (h2 : n1 ≤ 56319) (h3 : 56320 ≤ n2) (h4 : n2 ≤ 57343)
    (r : List Char) :
    parseEscapePayload ('u' :: (hex4 n1 ++ '\\' :: 'u' :: (hex4 n2 ++ r)))
      = some (Char.ofNat (65536 + (n1 - 55296) * 1024 + (n2 - 56320)), r) := by
  rw [parseEscapePayload, if_pos rfl]
  simp only [hex4, List.cons_append, List.nil_append, parseUEsc,
    hexVal4_hex4 (show n1 < 65536 by omega), Option.some_bind]
  rw [if_pos (by omega)]
  simp only [parseLoSurr]
  rw [if_pos (by simp)]
  simp only [hexVal4_hex4 (show n2 < 65536 by omega), Option.some_bind]
  rw [if_pos (by omega)]

theorem escapeChar_ne_nil (c : Char) : escapeChar c ≠ [] := by
  unfold escapeChar
  split_ifs <;> simp [hex4]

/-- Decoding the escape of `c` yields `c` and the untouched remainder. -/
theorem parseStep_escapeChar (c : Char) (r : List Char) :
    (escapeChar c = [c] ∧ c ≠ '"' ∧ c ≠ '\\' ∧ 32 ≤ c.toNat)
    ∨ (∃ payload, escapeChar c = '\\' :: payload
        ∧ parseEscapePayload (payload ++ r) = some (c, r)) := by
  by_cases h1 : c = '"'
  · subst h1
    exact Or.inr ⟨['"'], rfl, parseEscapePayload_simple _ _ (by decide) (by decide) r⟩
  · by_cases h2 : c = '\\'
    · subst h2
      exact Or.inr ⟨['\\'], rfl, parseEscapePayload_simple _ _ (by decide) (by decide) r⟩
    · by_cases h3 : c = '\n'
      · subst h3
        exact Or.inr ⟨['n'], rfl, parseEscapePayload_simple _ _ (by decide) (by decide) r⟩
      · by_cases h4 : c = '\t'
        · subst h4
          exact Or.inr ⟨['t'], rfl, parseEscapePayload_simple _ _ (by decide) (by decide) r⟩
        · by_cases h5 : c = '\r'
          · subst h5
            exact Or.inr ⟨['r'], rfl, parseEscapePayload_simple _ _ (by decide) (by decide) r⟩
          · by_cases h6 : c.toNat = 8
            · have hc : Char.ofNat 8 = c := by rw [← h6, Char.ofNat_toNat]
              refine Or.inr ⟨['b'], ?_, ?_⟩
              · rw [escapeChar, if_neg h1, if_neg h2, if_neg h3, if_neg h4, if_neg h5,
                  if_pos h6]
              · rw [List.singleton_append,
                  parseEscapePayload_simple 'b' (Char.ofNat 8) (by decide) (by decide) r, hc]
            · by_cases h7 : c.toNat = 12
              · have hc : Char.ofNat 12 = c := by rw [← h7, Char.ofNat_toNat]
                refine Or.inr ⟨['f'], ?_, ?_⟩
                · rw [escapeChar, if_neg h1, if_neg h2, if_neg h3, if_neg h4, if_neg h5,
                    if_neg h6, if_pos h7]
                · rw [List.singleton_append,
                    parseEscapePayload_simple 'f' (Char.ofNat 12) (by decide) (by decide) r,
                    hc]
              · by_cases h8 : 32 ≤ c.toNat ∧ c.toNat ≤ 126
                · refine Or.inl ⟨?_, h1, h2, h8.1⟩
                  rw [escapeChar, if_neg h1, if_neg h2, if_neg h3, if_neg h4, if_neg h5,
                    if_neg h6, if_neg h7, if_pos h8]
                · by_cases h9 : c.toNat < 65536
                  · have hval := char_valid_toNat c
                    refine Or.inr ⟨'u' :: hex4 c.toNat, ?_, ?_⟩
                    · rw [escapeChar, if_neg h1, if_neg h2, if_neg h3, if_neg h4, if_neg h5,
                        if_neg h6, if_neg h7, if_neg h8, if_pos h9]
                    · rw [List.cons_append, parseEscapePayload_u h9 (by omega),
                        Char.ofNat_toNat]
                  · have hval := char_valid_toNat c
                    have h10 : c.toNat < 1114112 := by omega
                    refine Or.inr
                      ⟨'u' :: (hex4 (55296 + (c.toNat - 65536) / 1024)
                        ++ '\\' :: 'u' :: hex4 (56320 + (c.toNat - 65536) % 1024)), ?_, ?_⟩
                    · rw [escapeChar, if_neg h1, if_neg h2, if_neg h3, if_neg h4, if_neg h5,
                        if_neg h6, if_neg h7, if_neg h8, if_neg h9]
                      simp [List.append_assoc]
                    · rw [List.cons_append, List.append_assoc, List.cons_append,
                        List.cons_append,
                        parseEscapePayload_pair (by omega) (by omega) (by omega) (by omega)]
                      have e : 65536 + (55296 + (c.toNat - 65536) / 1024 - 55296) * 1024
                          + (56320 + (c.toNat - 65536) % 1024 - 56320) = c.toNat := by
                        omega
                      rw [e, Char.ofNat_toNat]

theorem parseStringBodyF_escape (s rest : List Char) :
    ∀ f, s.length + 1 ≤ f →
      parseStringBodyF f (escapeString s ++ '"' :: rest) = some (s, rest) := by
  induction s with
  | nil =>
    intro f hf
    obtain ⟨f', rfl⟩ : ∃ f', f = f' + 1 := ⟨f - 1, by omega⟩
    rw [escapeString, List.nil_append, parseStringBodyF, if_pos rfl]
  | cons c s ih =>
    intro f hf
    obtain ⟨f', rfl⟩ : ∃ f', f = f' + 1 := ⟨f - 1, by omega⟩
    show parseStringBodyF (f' + 1) ((escapeChar c ++ escapeString s) ++ '"' :: rest) = _
    rw [List.append_assoc]
    rcases parseStep_escapeChar c (escapeString s ++ '"' :: rest) with
      ⟨hesc, hq, hb, hge⟩ | ⟨payload, hesc, hdec⟩
    · rw [hesc, List.singleton_append, parseStringBodyF, if_neg hq, if_neg hb,
        if_neg (by omega), ih f' (by simpa using hf)]
      rfl
    · rw [hesc, List.cons_append, parseStringBodyF, if_neg (by decide), if_pos rfl, hdec,
        Option.some_bind, ih f' (by simpa using hf)]
      rfl

theorem escapeString_length (s : List Char) : s.length ≤ (escapeString s).length := by
  induction s with
  | nil => simp [escapeString]
  | cons c s ih =>
    rw [escapeString, List.length_append, List.length_cons]
    have h1 : 1 ≤ (escapeChar c).length := by
      rcases hx : escapeChar c with _ | ⟨a, t⟩
      · exact absurd hx (escapeChar_ne_nil c)
      · simp
    omega

/-- The string-body parser at its call-site fuel inverts `json.dumps`
escaping. -/
theorem parseStrAt_escape (s rest : List Char) :
    parseStrAt (escapeString s ++ '"' :: rest) = some (s, rest) := by
  have h := escapeString_length s
  apply parseStringBodyF_escape
  simp only [List.length_append, List.length_cons]
  omega

/-! ## Structural round trip: `json.loads` inverts the indent-2 dump -/

theorem skipWsL_not_ws {c : Char} (h : c.isWhitespace = false) (l : List Char) :
    skipWsL (c :: l) = c :: l := by
  rw [skipWsL, List.dropWhile_cons, h]
  simp

theorem skipWsL_ws {c : Char} (h : c.isWhitespace = true) (l : List Char) :
    skipWsL (c :: l) = skipWsL l := by
  rw [skipWsL, List.dropWhile_cons, h]
  rfl

theorem skipWsL_sp (l : List Char) : skipWsL (' ' :: l) = skipWsL l :=
  skipWsL_ws (by decide) l

theorem skipWsL_nl (l : List Char) : skipWsL ('\n' :: l) = skipWsL l :=
  skipWsL_ws (by decide) l

theorem parseJ_value_str (f : Nat) (s : String) (l rest : List Char)
    (hl : skipWsL l = renderStr s ++ rest) :
    parseJ (f + 1) PMode.value l = some (POut.v (Json.str s), rest) := by
  rw [parseJ, hl]
  simp only [renderStr, List.cons_append, List.append_assoc, List.singleton_append,
    List.nil_append]
  rw [if_pos trivial, parseStrAt_escape, Option.map_some']

theorem skipWsL_renderMember (k v : String) (t : List Char) :
    skipWsL (renderMember k v ++ t) = renderMember k v ++ t := by
  rw [renderMember, renderStr]
  simp only [List.cons_append, List.append_assoc]
  exact skipWsL_not_ws (by decide) _

theorem skipWsL_renderMembers (ms : List (String × String)) (hne : ms ≠ [])
    (t : List Char) :
    skipWsL (renderMembers ms ++ t) = renderMembers ms ++ t := by
  rcases ms with _ | ⟨⟨k, v⟩, _ | ⟨p, ms'⟩⟩
  · exact absurd rfl hne
  · show skipWsL (renderMember k v ++ t) = renderMember k v ++ t
    exact skipWsL_renderMember k v t
  · show skipWsL ((renderMember k v ++ ',' :: '\n' :: (ind4 ++ renderMembers (p :: ms')))
        ++ t) = _
    rw [List.append_assoc, skipWsL_renderMember]
    show _ = (renderMember k v ++ ',' :: '\n' :: (ind4 ++ renderMembers (p :: ms'))) ++ t
    simp [List.cons_append, List.append_assoc]


theorem parseJ_members_step (k v : String) (f : Nat) (l tail : List Char)
    (hl : skipWsL l = renderMember k v ++ tail) :
    parseJ (f + 2) PMode.members l =
      (match skipWsL tail with
       | ',' :: r4 =>
         (parseJ (f + 1) PMode.members r4).bind fun q =>
         (match q.1 with
          | POut.ms ms => some (POut.ms ((k, Json.str v) :: ms), q.2)
          | _ => none)
       | c2 :: r4 => if c2 = braceR then some (POut.ms [(k, Json.str v)], r4) else none
       | [] => none) := by
  have hl2 : skipWsL l = '"' :: (escapeString k.data
      ++ '"' :: (':' :: ' ' :: (renderStr v ++ tail))) := by
    rw [hl, renderMember, renderStr]
    simp only [List.cons_append, List.append_assoc, List.singleton_append, List.nil_append]
  rw [show f + 2 = (f + 1) + 1 from rfl, parseJ, hl2]
  show (if ('"' : Char) = '"' then _ else _) = _
  rw [if_pos rfl, parseStrAt_escape, Option.some_bind]
  dsimp only
  rw [skipWsL_not_ws (by decide)]
  have hval := parseJ_value_str f v (' ' :: (renderStr v ++ tail)) tail
    (by
      rw [skipWsL_ws (by decide), renderStr]
      simp only [List.cons_append, List.append_assoc, List.singleton_append, List.nil_append]
      exact skipWsL_not_ws (by decide) _)
  show (parseJ (f + 1) PMode.value (' ' :: (renderStr v ++ tail))).bind _ = _
  rw [hval, Option.some_bind]

theorem parseJ_members_go (ms : List (String × String)) :
    ∀ (l rest : List Char) (f : Nat), ms ≠ [] → ms.length + 1 ≤ f →
    skipWsL l = renderMembers ms ++ '\n' :: ' ' :: ' ' :: braceR :: rest →
    parseJ f PMode.members l
      = some (POut.ms (ms.map fun p => (p.1, Json.str p.2)), rest) := by
  induction ms with
  | nil =>
    intro l rest f hne _ _
    exact absurd rfl hne
  | cons p ms ih =>
    obtain ⟨k, v⟩ := p
    intro l rest f _ hf hl
    obtain ⟨f0, rfl⟩ : ∃ f0, f = f0 + 2 := ⟨f - 2, by simp at hf; omega⟩
    rcases ms with _ | ⟨p2, ms2⟩
    · rw [parseJ_members_step k v f0 l ('\n' :: ' ' :: ' ' :: braceR :: rest)
        (by
          rw [hl]
          rfl)]
      rw [skipWsL_ws (by decide), skipWsL_ws (by decide), skipWsL_ws (by decide),
        skipWsL_not_ws (by decide)]
      show (if braceR = braceR then _ else _) = _
      rw [if_pos rfl]
      rfl
    · rw [parseJ_members_step k v f0 l
        (',' :: '\n' :: (ind4 ++ (renderMembers (p2 :: ms2)
          ++ '\n' :: ' ' :: ' ' :: braceR :: rest)))
        (by
          rw [hl]
          show (renderMember k v ++ ',' :: '\n' :: (ind4 ++ renderMembers (p2 :: ms2)))
            ++ '\n' :: ' ' :: ' ' :: braceR :: rest = _
          simp only [List.cons_append, List.append_assoc])]
      rw [skipWsL_not_ws (by decide)]
      show (parseJ (f0 + 1) PMode.members ('\n' :: (ind4 ++ (renderMembers (p2 :: ms2)
          ++ '\n' :: ' ' :: ' ' :: braceR :: rest)))).bind _ = _
      rw [ih ('\n' :: (ind4 ++ (renderMembers (p2 :: ms2)
            ++ '\n' :: ' ' :: ' ' :: braceR :: rest))) rest (f0 + 1)
          (by simp) (by simp at hf ⊢; omega)
          (by
            rw [skipWsL_ws (by decide), ind4]
            rw [List.cons_append, List.cons_append, List.cons_append, List.cons_append,
              List.nil_append]
            rw [skipWsL_ws (by decide), skipWsL_ws (by decide), skipWsL_ws (by decide),
              skipWsL_ws (by decide)]
            exact skipWsL_renderMembers _ (by simp) _),
        Option.some_bind]
      rfl


theorem renderMember_shape (k v : String) (t : List Char) :
    renderMember k v ++ t
      = '"' :: (escapeString k.data ++ '"' :: (':' :: ' ' :: (renderStr v ++ t))) := by
  rw [renderMember, renderStr]
  simp only [List.cons_append, List.append_assoc, List.singleton_append, List.nil_append]

theorem recFields_ne_nil (r : KeyRecord) : recFields r ≠ [] := by
  simp [recFields]

theorem renderMembers_recFields_shape (r : KeyRecord) (t : List Char) :
    renderMembers (recFields r) ++ t
      = '"' :: (escapeString "start_date".data
          ++ '"' :: (':' :: ' ' :: (renderStr r.start_date
            ++ ',' :: '\n' :: (ind4 ++ (renderMembers [("end_date", r.end_date),
              ("activation_code", r.activation_code)] ++ t))))) := by
  show (renderMember "start_date" r.start_date
      ++ ',' :: '\n' :: (ind4 ++ renderMembers [("end_date", r.end_date),
        ("activation_code", r.activation_code)])) ++ t = _
  rw [List.append_assoc, renderMember_shape]
  simp only [List.cons_append, List.append_assoc]

theorem parseJ_value_rec (r : KeyRecord) (l rest : List Char) (f : Nat) (hf : 5 ≤ f)
    (hl : skipWsL l = renderRec r ++ rest) :
    parseJ f PMode.value l = some (POut.v (recJson r), rest) := by
  obtain ⟨f0, rfl⟩ : ∃ f0, f = f0 + 1 := ⟨f - 1, by omega⟩
  have hl2 : skipWsL l = braceL :: ('\n' :: (ind4 ++ (renderMembers (recFields r)
      ++ '\n' :: ' ' :: ' ' :: braceR :: rest))) := by
    rw [hl, renderRec]
    simp only [List.cons_append, List.append_assoc, List.singleton_append, List.nil_append]
  rw [parseJ, hl2]
  show (if braceL = '"' then _ else _) = _
  rw [if_neg (by decide), if_neg (by decide), if_pos rfl]
  have hsk : skipWsL ('\n' :: (ind4 ++ (renderMembers (recFields r)
      ++ '\n' :: ' ' :: ' ' :: braceR :: rest)))
      = renderMembers (recFields r) ++ '\n' :: ' ' :: ' ' :: braceR :: rest := by
    rw [skipWsL_ws (by decide), ind4]
    rw [List.cons_append, List.cons_append, List.cons_append, List.cons_append,
      List.nil_append]
    rw [skipWsL_ws (by decide), skipWsL_ws (by decide), skipWsL_ws (by decide),
      skipWsL_ws (by decide)]
    exact skipWsL_renderMembers _ (recFields_ne_nil r) _
  rw [hsk, renderMembers_recFields_shape]
  show (if ('"' : Char) = braceR then _ else _) = _
  rw [if_neg (by decide)]
  rw [parseJ_members_go (recFields r) _ rest f0 (recFields_ne_nil r)
      (by simp [recFields]; omega)
      (by
        rw [skipWsL_not_ws (by decide), renderMembers_recFields_shape]),
    Option.some_bind]
  rfl

theorem skipWsL_renderRec (r : KeyRecord) (t : List Char) :
    skipWsL (renderRec r ++ t) = renderRec r ++ t := by
  rw [renderRec]
  simp only [List.cons_append]
  exact skipWsL_not_ws (by decide) _

theorem parseJ_items_go (recs : List KeyRecord) :
    ∀ (r : KeyRecord) (l rest : List Char) (f : Nat),
    2 * recs.length + 6 ≤ f →
    skipWsL l = renderRec r ++ itemsTail recs rest →
    parseJ f PMode.items l = some (POut.vs ((r :: recs).map recJson), rest) := by
  induction recs with
  | nil =>
    intro r l rest f hf hl
    obtain ⟨f0, rfl⟩ : ∃ f0, f = f0 + 1 := ⟨f - 1, by omega⟩
    rw [parseJ,
      parseJ_value_rec r l ('\n' :: ']' :: rest) f0 (by omega) hl,
      Option.some_bind]
    rw [skipWsL_nl, @skipWsL_not_ws ']' (by decide)]
    rfl
  | cons r2 recs2 ih =>
    intro r l rest f hf hl
    obtain ⟨f0, rfl⟩ : ∃ f0, f = f0 + 1 := ⟨f - 1, by omega⟩
    rw [parseJ,
      parseJ_value_rec r l
        (',' :: '\n' :: (renderItems (r2 :: recs2) ++ '\n' :: ']' :: rest)) f0
        (by simp at hf; omega) hl,
      Option.some_bind]
    rw [@skipWsL_not_ws ',' (by decide)]
    have hih := ih r2 ('\n' :: (renderItems (r2 :: recs2) ++ '\n' :: ']' :: rest)) rest f0
      (by simp at hf ⊢; omega)
      (by
        rw [skipWsL_nl]
        rcases recs2 with _ | ⟨r3, recs3⟩
        · show skipWsL ((' ' :: ' ' :: renderRec r2) ++ '\n' :: ']' :: rest)
            = renderRec r2 ++ ('\n' :: ']' :: rest)
          simp only [List.cons_append]
          rw [skipWsL_sp, skipWsL_sp, skipWsL_renderRec]
        · show skipWsL ((' ' :: ' ' :: renderRec r2
              ++ ',' :: '\n' :: renderItems (r3 :: recs3)) ++ '\n' :: ']' :: rest)
            = renderRec r2 ++ (',' :: '\n' :: (renderItems (r3 :: recs3) ++ '\n' :: ']' :: rest))
          simp only [List.cons_append, List.append_assoc]
          rw [skipWsL_sp, skipWsL_sp, skipWsL_renderRec])
    show (parseJ f0 PMode.items
        ('\n' :: (renderItems (r2 :: recs2) ++ '\n' :: ']' :: rest))).bind _ = _
    rw [hih, Option.some_bind]
    rfl

theorem renderItems_length (recs : List KeyRecord) :
    recs.length ≤ (renderItems recs).length := by
  induction recs with
  | nil => simp [renderItems]
  | cons r recs ih =>
    rcases recs with _ | ⟨r2, recs2⟩
    · simp [renderItems]
    · show (r :: r2 :: recs2).length
        ≤ (' ' :: ' ' :: renderRec r ++ ',' :: '\n' :: renderItems (r2 :: recs2)).length
      simp only [List.length_cons, List.length_append] at ih ⊢
      omega

/-- `json.loads` inverts `json.dumps(formatted_data, indent=2)`: the loaded
value is the array of objects with the three string fields of each record,
in order. -/
theorem json_loads_dumpsRecs (recs : List KeyRecord) :
    json_loads (String.mk (dumpsRecs recs)) = some (Json.arr (recs.map recJson)) := by
  rcases recs with _ | ⟨r, recs⟩
  · rfl
  · rw [json_loads]
    have hlen2 : recs.length + 1 ≤ (dumpsRecs (r :: recs)).length := by
      have h := renderItems_length (r :: recs)
      show recs.length + 1 ≤ ('[' :: '\n' :: (renderItems (r :: recs) ++ '\n' :: [']'])).length
      simp only [List.length_cons, List.length_append] at h ⊢
      omega
    have hlen : (String.mk (dumpsRecs (r :: recs))).length
        = (dumpsRecs (r :: recs)).length := rfl
    obtain ⟨f0, hf0⟩ : ∃ f0, 2 * (String.mk (dumpsRecs (r :: recs))).length + 16 = f0 + 1 :=
      ⟨2 * (String.mk (dumpsRecs (r :: recs))).length + 15, by omega⟩
    rw [hf0]
    have hdata : (String.mk (dumpsRecs (r :: recs))).data
        = '[' :: '\n' :: (renderItems (r :: recs) ++ '\n' :: [']']) := rfl
    rw [hdata, parseJ]
    rw [@skipWsL_not_ws '[' (by decide)]
    show ((if ('[' : Char) = '"' then _ else _) : Option (POut × List Char)).bind _ = _
    rw [if_neg (by decide), if_pos rfl]
    have hT : skipWsL ('\n' :: (renderItems (r :: recs) ++ '\n' :: [']']))
        = renderRec r ++ itemsTail recs [] := by
      rw [skipWsL_nl]
      rcases recs with _ | ⟨r2, recs2⟩
      · show skipWsL ((' ' :: ' ' :: renderRec r) ++ '\n' :: [']'])
          = renderRec r ++ ('\n' :: ']' :: [])
        simp only [List.cons_append]
        rw [skipWsL_sp, skipWsL_sp, skipWsL_renderRec]
      · show skipWsL ((' ' :: ' ' :: renderRec r
            ++ ',' :: '\n' :: renderItems (r2 :: recs2)) ++ '\n' :: [']'])
          = renderRec r ++ (',' :: '\n' :: (renderItems (r2 :: recs2) ++ '\n' :: ']' :: []))
        simp only [List.cons_append, List.append_assoc]
        rw [skipWsL_sp, skipWsL_sp, skipWsL_renderRec]
    rw [hT]
    have hcons : renderRec r ++ itemsTail recs []
        = braceL :: ('\n' :: (ind4 ++ (renderMembers (recFields r)
            ++ '\n' :: ' ' :: ' ' :: braceR :: itemsTail recs []))) := by
      rw [renderRec]
      simp only [List.cons_append, List.append_assoc, List.singleton_append, List.nil_append]
    have hitems := parseJ_items_go recs r (renderRec r ++ itemsTail recs [])
      ([] : List Char) f0
      (by rw [hlen] at hf0; omega)
      (skipWsL_renderRec r _)
    rw [hcons] at hitems
    rw [hcons]
    split
    · rename_i r2 heq
      injection heq with h1 _
      exact absurd h1 (by decide)
    · rw [hitems, Option.some_bind]
      rfl


/-! ## Parser-scan lemmas -/

theorem hasDashSep_nil : hasDashSep [] = false := by decide

theorem scanLines_pairs (ps : List (List Char × List Char))
    (h : ∀ p ∈ ps, hasDashSep (trimChars p.1) = true ∧ trimChars p.2 ≠ [] ∧
      hasDashSep (trimChars p.2) = false) :
    scanLines (interleavePairs ps) none
      = ps.map fun p => ⟨String.mk (trimChars p.1), String.mk (trimChars p.2)⟩ := by
  induction ps with
  | nil => rfl
  | cons p ps ih =>
    obtain ⟨h1, h2, h3⟩ := h p (List.mem_cons_self _ _)
    have hne : ¬ trimChars p.1 = [] := by
      intro hx
      rw [hx, hasDashSep_nil] at h1
      exact absurd h1 (by decide)
    rw [interleavePairs, scanLines, if_neg hne, if_pos h1, scanLines, if_neg h2,
      if_neg (by rw [h3]; decide)]
    rw [ih fun q hq => h q (List.mem_cons_of_mem _ hq)]
    rfl

theorem scanLines_invariant :
    ∀ (lines : List (List Char)) (pending : Option (List Char)),
    (∀ d, pending = some d → hasDashSep d = true ∧ ∃ raw, d = trimChars raw) →
    ∀ e ∈ scanLines lines pending,
      hasDashSep e.date_range.data = true ∧ e.activation_code.data ≠ [] ∧
      hasDashSep e.activation_code.data = false ∧
      (∃ raw, e.activation_code.data = trimChars raw) ∧
      (∃ raw, e.date_range.data = trimChars raw) := by
  intro lines
  induction lines with
  | nil =>
    intro pending _ e he
    simp [scanLines] at he
  | cons l rest ih =>
    intro pending hp e he
    rw [scanLines.eq_def] at he
    dsimp only at he
    by_cases hb : trimChars l = []
    · rw [if_pos hb] at he
      exact ih pending hp e he
    · rw [if_neg hb] at he
      by_cases hd : hasDashSep (trimChars l) = true
      · rw [if_pos hd] at he
        exact ih (some (trimChars l)) (by
          intro d hdd
          obtain rfl : trimChars l = d := by simpa using hdd
          exact ⟨hd, l, rfl⟩) e he
      · rw [if_neg hd] at he
        split at he
        · rename_i pending2 dr
          rcases List.mem_cons.mp he with he | he
          · subst he
            obtain ⟨hdr, raw, hraw⟩ := hp dr rfl
            exact ⟨hdr, hb, by simpa using hd, ⟨l, rfl⟩, ⟨raw, hraw⟩⟩
          · exact ih none (by simp) e he
        · exact ih none (by simp) e he

/-! ## Selector lemma -/

theorem selectCode_eq_find (now : Int) (ws : List ActivationWindow) :
    selectCode now ws
      = (ws.find? fun w => decide (w.startTime ≤ now ∧ now ≤ w.endTime)).map
          ActivationWindow.code := by
  induction ws with
  | nil => rfl
  | cons w ws ih =>
    rw [selectCode, List.find?_cons]
    by_cases h : w.startTime ≤ now ∧ now ≤ w.endTime
    · simp [h]
    · simp [h, ih]

/-! ## Main-flow lemmas -/

theorem mainRun_eq_runFetchSelect (e : Option String) (f : FetchOutcome) (now : Int) :
    mainRun e f now = runFetchSelect f now := by
  rw [mainRun, ite_self]

theorem runFetchSelect_written_of_ok {f : FetchOutcome} {tmp : String}
    (h : (build_cached_data f).2 = Except.ok (some tmp)) (now : Int) :
    (runFetchSelect f now).2.1 = some tmp := by
  unfold runFetchSelect
  rcases hb : build_cached_data f with ⟨alerts, res⟩
  rw [hb] at h
  have h2 : res = Except.ok (some tmp) := h
  subst h2
  dsimp only
  split <;> first | rfl | (split <;> first | rfl | (split <;> rfl))

theorem runFetchSelect_written_of_none {f : FetchOutcome}
    (h : (build_cached_data f).2 = Except.ok none) (now : Int) :
    (runFetchSelect f now).2.1 = none := by
  unfold runFetchSelect
  rcases hb : build_cached_data f with ⟨alerts, res⟩
  rw [hb] at h
  have h2 : res = Except.ok none := h
  subst h2
  rfl

/-! ## Formatting-shape lemmas -/

theorem formatEntry_shape {e : RawWindowEntry} {rec : KeyRecord}
    (h : formatEntry e = some rec) :
    ∃ c1 c2, validDT c1 ∧ validDT c2 ∧
      rec.start_date = String.mk (isoChars c1) ∧
      rec.end_date = String.mk (isoChars c2) ∧
      rec.activation_code = e.activation_code := by
  unfold formatEntry at h
  rw [Option.bind_eq_some] at h
  obtain ⟨⟨a, b⟩, _, h⟩ := h
  dsimp only at h
  rw [Option.bind_eq_some] at h
  obtain ⟨fa, hfa, h⟩ := h
  rw [Option.map_eq_some'] at h
  obtain ⟨fb, hfb, h⟩ := h
  unfold format_date at hfa hfb
  rw [Option.map_eq_some'] at hfa hfb
  obtain ⟨c1, hc1, rfl⟩ := hfa
  obtain ⟨c2, hc2, rfl⟩ := hfb
  subst h
  exact ⟨c1, c2, strptime_valid hc1, strptime_valid hc2, rfl, rfl, rfl⟩

theorem mapOption_mem {A B : Type} (f : A → Option B) :
    ∀ (l : List A) (res : List B), mapOption f l = some res →
    ∀ b ∈ res, ∃ a ∈ l, f a = some b := by
  intro l
  induction l with
  | nil =>
    intro res h b hb
    rw [mapOption] at h
    obtain rfl : ([] : List B) = res := by simpa using h
    simp at hb
  | cons a l ih =>
    intro res h b hb
    rw [mapOption, Option.bind_eq_some] at h
    obtain ⟨b0, hb0, h⟩ := h
    rw [Option.map_eq_some'] at h
    obtain ⟨bs, hbs, rfl⟩ := h
    rcases List.mem_cons.mp hb with rfl | hb
    · exact ⟨a, List.mem_cons_self _ _, hb0⟩
    · obtain ⟨a2, ha2, hfa2⟩ := ih bs hbs b hb
      exact ⟨a2, List.mem_cons_of_mem _ ha2, hfa2⟩

theorem isoChars_shape {c : DateTimeC} (h : validDT c) :
    ∀ ch ∈ isoChars c, ch.isDigit = true ∨ ch = '-' ∨ ch = ':' ∨ ch = 'T' := by
  obtain ⟨h1, h2, h3, h4, h5, h6, h7, h8, h9⟩ := h
  have h6' : c.day ≤ 31 := le_trans h6 (daysInMonth_le31 _ _)
  intro ch hch
  simp only [isoChars, pad4, pad2, List.cons_append, List.nil_append, List.mem_cons,
    List.not_mem_nil, or_false] at hch
  rcases hch with rfl|rfl|rfl|rfl|rfl|rfl|rfl|rfl|rfl|rfl|rfl|rfl|rfl|rfl|rfl|rfl|rfl|rfl|rfl <;>
    first
      | (left; exact digitChar_isDigit (by omega))
      | (right; left; rfl)
      | (right; right; left; rfl)
      | (right; right; right; rfl)


theorem selectCode_some_mem {now : Int} {ws : List ActivationWindow} {code : String}
    (h : selectCode now ws = some code) : ∃ w ∈ ws, w.code = code := by
  rw [selectCode_eq_find] at h
  rw [Option.map_eq_some'] at h
  obtain ⟨w, hw, rfl⟩ := h
  exact ⟨w, List.mem_of_find?_eq_some hw, rfl⟩

/-! ## The claims -/

/-- C1: the Selector returns the activation code of the first window in
source order whose interval contains `now` inclusively at both ends, and
`none` when the sequence is empty or `now` lies outside every window; for
the two overlapping example windows `"A"` (00:00Z-10:00Z) and `"B"`
(05:00Z-15:00Z) at now = 2024-01-01T06:00Z it returns `"A"`. -/
theorem claim_C1 :
    (∀ (now : Int) (ws : List ActivationWindow),
        selectCode now ws
          = (ws.find? fun w => decide (w.startTime ≤ now ∧ now ≤ w.endTime)).map
              ActivationWindow.code)
    ∧ selectCode (naiveEpoch ⟨2024, 1, 1, 6, 0, 0⟩)
        [⟨naiveEpoch ⟨2024, 1, 1, 0, 0, 0⟩, naiveEpoch ⟨2024, 1, 1, 10, 0, 0⟩, "A"⟩,
         ⟨naiveEpoch ⟨2024, 1, 1, 5, 0, 0⟩, naiveEpoch ⟨2024, 1, 1, 15, 0, 0⟩, "B"⟩]
        = some "A"
    ∧ (∀ now : Int, selectCode now [] = none)
    ∧ (∀ (now : Int) (ws : List ActivationWindow),
        (∀ w ∈ ws, ¬(w.startTime ≤ now ∧ now ≤ w.endTime)) → selectCode now ws = none) := by
  refine ⟨selectCode_eq_find, by decide, fun now => rfl, ?_⟩
  intro now ws h
  rw [selectCode_eq_find, List.find?_eq_none.mpr, Option.map_none']
  intro w hw
  simpa using h w hw

/-- Witness for C1 at a concrete no-match input. -/
theorem claim_C1_witness :
    selectCode 5 [⟨10, 20, "X"⟩] = none :=
  claim_C1.2.2.2 5 [⟨10, 20, "X"⟩] (by decide)

/-- C2: the two-state scan emits exactly one entry per valid (range line,
code line) pair in source order; a second range line overwrites the
pending range (the first yields no entry), and a trailing pending range
yields no entry. -/
theorem claim_C2 :
    (∀ ps : List (List Char × List Char),
        (∀ p ∈ ps, hasDashSep (trimChars p.1) = true ∧ trimChars p.2 ≠ [] ∧
          hasDashSep (trimChars p.2) = false) →
        scanLines (interleavePairs ps) none
          = ps.map fun p => ⟨String.mk (trimChars p.1), String.mk (trimChars p.2)⟩)
    ∧ scanLines ["2024-01-01 00:00:00 - 2024-01-02 00:00:00".data,
        "2024-02-01 00:00:00 - 2024-02-02 00:00:00".data, "CODE".data] none
        = [⟨"2024-02-01 00:00:00 - 2024-02-02 00:00:00", "CODE"⟩]
    ∧ scanLines ["2024-01-01 00:00:00 - 2024-01-02 00:00:00".data] none = [] := by
  exact ⟨scanLines_pairs, by decide, by decide⟩

/-- Witness for C2 at a concrete one-pair block. -/
theorem claim_C2_witness :
    scanLines (interleavePairs
        [("2024-01-01 00:00:00 - 2024-01-02 00:00:00".data, "AAAA-BBBB".data)]) none
      = [⟨"2024-01-01 00:00:00 - 2024-01-02 00:00:00", "AAAA-BBBB"⟩] :=
  (claim_C2.1 [("2024-01-01 00:00:00 - 2024-01-02 00:00:00".data, "AAAA-BBBB".data)]
    (by decide)).trans (by decide)

/-- C3: the Normalizer reads the parsed wall clock as UTC+8 and converts
to UTC, so the resulting instant is exactly 8 hours (28800 s) earlier than
the literal wall-clock value; for the example date range the two instants
are exactly 24 hours apart. -/
theorem claim_C3 :
    (∀ c : DateTimeC, validDT c →
        convert_to_utc (String.mk (isoChars c)) = some (naiveEpoch c - 8 * 3600))
    ∧ format_date "2024-01-01 00:00:00" = some "2024-01-01T00:00:00"
    ∧ format_date "2024-01-02 00:00:00" = some "2024-01-02T00:00:00"
    ∧ (∃ a b : Int, convert_to_utc "2024-01-01T00:00:00" = some a
        ∧ convert_to_utc "2024-01-02T00:00:00" = some b
        ∧ b - a = 86400
        ∧ a = naiveEpoch ⟨2024, 1, 1, 0, 0, 0⟩ - 8 * 3600) := by
  refine ⟨?_, by decide, by decide, ?_⟩
  · intro c h
    unfold convert_to_utc
    rw [show (String.mk (isoChars c)).data = isoChars c from rfl, fromiso_isoChars h,
      Option.map_some']
  · exact ⟨naiveEpoch ⟨2024, 1, 1, 0, 0, 0⟩ - 8 * 3600,
      naiveEpoch ⟨2024, 1, 2, 0, 0, 0⟩ - 8 * 3600, by decide, by decide, by decide, rfl⟩

/-- Witness for C3 at a concrete datetime. -/
theorem claim_C3_witness :
    validDT ⟨2024, 1, 1, 0, 0, 0⟩
    ∧ convert_to_utc (String.mk (isoChars ⟨2024, 1, 1, 0, 0, 0⟩))
        = some (naiveEpoch ⟨2024, 1, 1, 0, 0, 0⟩ - 8 * 3600) :=
  ⟨by decide, claim_C3.1 ⟨2024, 1, 1, 0, 0, 0⟩ (by decide)⟩

/-- C4, counterexample to "without any further uncaught exception
escaping": on a network failure `build_cached_data` returns `None`, and
`main` then iterates `None` (main.py:328), so a `TypeError` escapes. -/
theorem claim_C4_counterexample :
    mainRun none FetchOutcome.requestError 0
      = ([connectFailMsg], none, RunOutcome.crashed noneIterMsg) := rfl

/-- C4 (amended): on a network failure the exception is caught and the
user is notified (the modal alert; the same handler also logs), the run
then aborts without selecting or delivering any code and without writing
`keys.json` — but it aborts via an uncaught `TypeError` from iterating the
`None` cached data, not via a clean return. -/
theorem claim_C4 :
    ∀ (existing : Option String) (now : Int),
      mainRun existing FetchOutcome.requestError now
        = ([connectFailMsg], none, RunOutcome.crashed noneIterMsg) := by
  intro e now
  rw [mainRun_eq_runFetchSelect]
  rfl

/-- C5, counterexample to "succeeds exactly on the zero-padded pattern":
CPython `strptime` is lenient, so `format_date` also accepts
`"2024-1-1 0:0:0"`, which does not match the zero-padded shape. -/
theorem claim_C5_counterexample :
    strictPat "2024-1-1 0:0:0" = false
    ∧ format_date "2024-1-1 0:0:0" = some "2024-01-01T00:00:00" := ⟨by decide, by decide⟩

/-- C5 (amended): `format_date` succeeds on every calendar-valid string in
the zero-padded `YYYY-MM-DD HH:MM:SS` shape, but also on CPython's lenient
variants (unpadded fields, whitespace runs); on strings it cannot parse it
raises, and the error is caught nowhere, so the run terminates (modelled:
`mainRun` ends `crashed "ValueError"`). -/
theorem claim_C5 :
    (∀ c : DateTimeC, validDT c →
        format_date (String.mk (strictChars c)) = some (String.mk (isoChars c)))
    ∧ format_date "2024-1-1 0:0:0" = some "2024-01-01T00:00:00"
    ∧ format_date "2024-01-01 99:00:00" = none
    ∧ (∀ (existing : Option String) (now : Int),
        mainRun existing (FetchOutcome.ok 200 (some "x - y\nCODE")) now
          = ([], none, RunOutcome.crashed "ValueError")) := by
  refine ⟨?_, by decide, by decide, ?_⟩
  · intro c h
    unfold format_date
    rw [show (String.mk (strictChars c)).data = strictChars c from rfl,
      strptime_strictChars h, Option.map_some']
  · intro e now
    rw [mainRun_eq_runFetchSelect]
    rfl

/-- Witness for C5 at a concrete datetime. -/
theorem claim_C5_witness :
    validDT ⟨2024, 1, 1, 0, 0, 0⟩
    ∧ format_date (String.mk (strictChars ⟨2024, 1, 1, 0, 0, 0⟩))
        = some (String.mk (isoChars ⟨2024, 1, 1, 0, 0, 0⟩)) :=
  ⟨by decide, claim_C5.1 ⟨2024, 1, 1, 0, 0, 0⟩ (by decide)⟩

/-- C6: the run is independent of whether `keys.json` already exists
(both branches re-fetch); `keys.json` is written with the freshly fetched
data exactly when the fetch yields some, and the pre-existing contents are
never read. -/
theorem claim_C6 :
    (∀ (e1 e2 : Option String) (f : FetchOutcome) (now : Int),
        mainRun e1 f now = mainRun e2 f now)
    ∧ (∀ (e : Option String) (f : FetchOutcome) (now : Int) (tmp : String),
        (build_cached_data f).2 = Except.ok (some tmp) →
        (mainRun e f now).2.1 = some tmp)
    ∧ (∀ (e : Option String) (f : FetchOutcome) (now : Int),
        (build_cached_data f).2 = Except.ok none → (mainRun e f now).2.1 = none) := by
  refine ⟨?_, ?_, ?_⟩
  · intro e1 e2 f now
    rw [mainRun_eq_runFetchSelect, mainRun_eq_runFetchSelect]
  · intro e f now tmp h
    rw [mainRun_eq_runFetchSelect]
    exact runFetchSelect_written_of_ok h now
  · intro e f now h
    rw [mainRun_eq_runFetchSelect]
    exact runFetchSelect_written_of_none h now

/-- Witness for C6: with a stale cache file present, the freshly fetched
dump is what gets written. -/
theorem claim_C6_witness :
    (mainRun (some "stale")
        (FetchOutcome.ok 200 (some "2024-01-01 00:00:00 - 2024-01-02 00:00:00\nAB")) 0).2.1
      = some (String.mk (dumpsRecs [⟨"2024-01-01T00:00:00", "2024-01-02T00:00:00", "AB"⟩])) :=
  claim_C6.2.1 (some "stale")
    (FetchOutcome.ok 200 (some "2024-01-01 00:00:00 - 2024-01-02 00:00:00\nAB")) 0
    (String.mk (dumpsRecs [⟨"2024-01-01T00:00:00", "2024-01-02T00:00:00", "AB"⟩]))
    rfl

/-- C7: serializing a parsed window sequence with `create_json_object` and
deserializing with `json.loads` preserves the start date, end date and
activation code of every entry exactly, in the same order. -/
theorem claim_C7 :
    ∀ (entries : List RawWindowEntry) (recs : List KeyRecord) (txt : String),
      mapOption formatEntry entries = some recs →
      create_json_object entries = some txt →
      txt = String.mk (dumpsRecs recs)
      ∧ json_loads txt = some (Json.arr (recs.map recJson)) := by
  intro entries recs txt h1 h2
  unfold create_json_object at h2
  rw [h1, Option.map_some'] at h2
  obtain rfl : String.mk (dumpsRecs recs) = txt := by simpa using h2
  exact ⟨rfl, json_loads_dumpsRecs recs⟩

/-- Witness for C7 at a concrete entry. -/
theorem claim_C7_witness :
    json_loads (String.mk (dumpsRecs [⟨"2024-01-01T00:00:00", "2024-01-02T00:00:00", "AB"⟩]))
      = some (Json.arr [recJson ⟨"2024-01-01T00:00:00", "2024-01-02T00:00:00", "AB"⟩]) :=
  (claim_C7 [⟨"2024-01-01 00:00:00 - 2024-01-02 00:00:00", "AB"⟩]
    [⟨"2024-01-01T00:00:00", "2024-01-02T00:00:00", "AB"⟩]
    (String.mk (dumpsRecs [⟨"2024-01-01T00:00:00", "2024-01-02T00:00:00", "AB"⟩]))
    rfl (by decide)).2

/-- C8: the `keys.json` payload is a JSON array of objects with exactly
the keys `start_date`, `end_date`, `activation_code` (see `recJson`),
where the date fields are ISO-8601 strings built only of digits and
`-`/`:`/`T` (no timezone suffix), holding the normalized UTC+8 wall-clock
values before any UTC conversion (reading a field back with
`fromisoformat` returns exactly the unshifted wall-clock datetime). -/
theorem claim_C8 :
    ∀ (entries : List RawWindowEntry) (recs : List KeyRecord),
      mapOption formatEntry entries = some recs →
      (∃ txt, create_json_object entries = some txt
        ∧ json_loads txt = some (Json.arr (recs.map recJson)))
      ∧ (∀ rec ∈ recs, ∃ c1 c2, validDT c1 ∧ validDT c2 ∧
          rec.start_date = String.mk (isoChars c1) ∧
          rec.end_date = String.mk (isoChars c2) ∧
          fromisoformatCanon (isoChars c1) = some c1 ∧
          fromisoformatCanon (isoChars c2) = some c2 ∧
          (∀ ch ∈ isoChars c1, ch.isDigit = true ∨ ch = '-' ∨ ch = ':' ∨ ch = 'T') ∧
          (∀ ch ∈ isoChars c2, ch.isDigit = true ∨ ch = '-' ∨ ch = ':' ∨ ch = 'T')) := by
  intro entries recs h
  constructor
  · refine ⟨String.mk (dumpsRecs recs), ?_, json_loads_dumpsRecs recs⟩
    unfold create_json_object
    rw [h, Option.map_some']
  · intro rec hrec
    obtain ⟨e, he, hfe⟩ := mapOption_mem formatEntry entries recs h rec hrec
    obtain ⟨c1, c2, hv1, hv2, h1, h2, _⟩ := formatEntry_shape hfe
    exact ⟨c1, c2, hv1, hv2, h1, h2, fromiso_isoChars hv1, fromiso_isoChars hv2,
      isoChars_shape hv1, isoChars_shape hv2⟩

/-- Witness for C8 at a concrete entry. -/
theorem claim_C8_witness :
    ∃ txt, create_json_object [⟨"2024-01-01 00:00:00 - 2024-01-02 00:00:00", "AB"⟩]
        = some txt
      ∧ json_loads txt
        = some (Json.arr [recJson ⟨"2024-01-01T00:00:00", "2024-01-02T00:00:00", "AB"⟩]) :=
  (claim_C8 [⟨"2024-01-01 00:00:00 - 2024-01-02 00:00:00", "AB"⟩]
    [⟨"2024-01-01T00:00:00", "2024-01-02T00:00:00", "AB"⟩] (by decide)).1

/-- C9: when the `<pre id="codes">` element is absent from the page body,
`parse_html_content` returns the empty sequence rather than raising. -/
theorem claim_C9 : parse_html_content none = [] := rfl

/-- C10: every parser-emitted entry has a `date_range` containing `" - "`
and a non-empty trimmed `activation_code` without `" - "`; consequently a
code selected from parser output is never the empty string, so the
selector's falsy check coincides with "no window matched". -/
theorem claim_C10 :
    (∀ (pre : Option String), ∀ e ∈ parse_html_content pre,
        hasDashSep e.date_range.data = true
        ∧ e.activation_code ≠ ""
        ∧ hasDashSep e.activation_code.data = false
        ∧ (∃ raw, e.activation_code.data = trimChars raw))
    ∧ (∀ (now : Int) (ws : List ActivationWindow),
        (∀ w ∈ ws, w.code ≠ "") →
        (pyFalsy (selectCode now ws) = true ↔ selectCode now ws = none)) := by
  constructor
  · intro pre e he
    rcases pre with _ | t
    · simp [parse_html_content] at he
    · obtain ⟨ha, hb, hc, hd, _⟩ :=
        scanLines_invariant (splitNl (trimChars t.data)) none (by simp) e he
      refine ⟨ha, ?_, hc, hd⟩
      intro hx
      apply hb
      rw [hx]
  · intro now ws h
    constructor
    · intro hf
      rcases hsel : selectCode now ws with _ | code
      · rfl
      · rw [hsel] at hf
        obtain ⟨w, hw, rfl⟩ := selectCode_some_mem hsel
        have : w.code = "" := by simpa [pyFalsy] using hf
        exact absurd this (h w hw)
    · intro hn
      rw [hn]
      rfl

/-- Witness for C10 at a concrete page body. -/
theorem claim_C10_witness :
    hasDashSep ("2024-01-01 00:00:00 - 2024-01-02 00:00:00" : String).data = true
    ∧ ("AB" : String) ≠ ""
    ∧ hasDashSep ("AB" : String).data = false
    ∧ (∃ raw, ("AB" : String).data = trimChars raw) :=
  claim_C10.1 (some "2024-01-01 00:00:00 - 2024-01-02 00:00:00\nAB")
    ⟨"2024-01-01 00:00:00 - 2024-01-02 00:00:00", "AB"⟩ (by decide)

end FileCxx
